import Mathlib

/-!
Verification development for the AOI inspection module
(`src/app/aoi/service.py` and its collaborators).

The Python values travelling through the validation pipeline are JSON
scalars: absent/None, strings and integers.  They are embedded as `PyVal`.
Dictionaries keyed by strings are embedded as insertion-ordered association
lists.  Exceptions are embedded as `Except`; the one place where the source
can raise an *unhandled* exception (the bare `int(...)` call in the
board-data loop) is modelled by a dedicated error value.
-/

set_option autoImplicit false

deriving instance DecidableEq for Except

namespace Aoi

/-- A JSON scalar as it arrives in the request payload: `None`, a string or
an integer.  (Floats, booleans and nested containers do not occur in the
fields this module reads.) -/
inductive PyVal where
  | none
  | str (s : String)
  | int (n : Int)
  deriving DecidableEq, Repr

/-- Python truthiness for `PyVal`: `None`, `""` and `0` are falsy. -/
def PyVal.truthy : PyVal → Bool
  | .none => false
  | .str s => !(s == "")
  | .int n => !(n == 0)

/-- Whitespace characters stripped by Python `str.strip()`. -/
def pyIsSpace (c : Char) : Bool :=
  c == ' ' || c == '\t' || c == '\n' || c == '\r' ||
    c == Char.ofNat 11 || c == Char.ofNat 12

/-- Strip leading and trailing whitespace from a character list. -/
def pyStripList (cs : List Char) : List Char :=
  ((cs.dropWhile pyIsSpace).reverse.dropWhile pyIsSpace).reverse

/-- Python `str.strip()` with no argument. -/
def pyStrip (s : String) : String :=
  ⟨pyStripList s.toList⟩

/-- Value of an ASCII digit character. -/
def digitVal (c : Char) : Nat := c.toNat - 48

/-- Read a non-empty all-digit character list as a natural number. -/
def digitsOf (ds : List Char) : Option Nat :=
  if ds ≠ [] ∧ ds.all Char.isDigit then
    some (ds.foldl (fun a c => a * 10 + digitVal c) 0)
  else
    Option.none

/-- Python `int(s)` on a string: surrounding whitespace is ignored, an
optional sign precedes a non-empty digit sequence.  (Digit-group
underscores are not modelled.)  `Option.none` means `ValueError`. -/
def pyIntOfString (s : String) : Option Int :=
  match pyStripList s.toList with
  | '-' :: ds => (digitsOf ds).map (fun n => -(n : Int))
  | '+' :: ds => (digitsOf ds).map (fun n => (n : Int))
  | ds => (digitsOf ds).map (fun n => (n : Int))

/-- Python `int(value)` on a payload scalar; `Option.none` means the call
raises `TypeError`/`ValueError`. -/
def pyInt : PyVal → Option Int
  | .none => Option.none
  | .int n => some n
  | .str s => pyIntOfString s

/-- Python `str(value)` on a payload scalar. -/
def pyStr : PyVal → String
  | .none => "None"
  | .str s => s
  | .int n => toString n

/-- A calendar date as produced by `datetime.date.fromisoformat`. -/
structure PyDate where
  year : Nat
  month : Nat
  day : Nat
  deriving DecidableEq, Repr

/-- Gregorian leap-year rule. -/
def isLeapYear (y : Nat) : Bool :=
  (y % 4 == 0 && y % 100 != 0) || (y % 400 == 0)

/-- Number of days in a month. -/
def daysInMonth (y m : Nat) : Nat :=
  if m = 2 then (if isLeapYear y then 29 else 28)
  else if m = 4 ∨ m = 6 ∨ m = 9 ∨ m = 11 then 30
  else 31

/-- `date.fromisoformat` on the canonical `YYYY-MM-DD` form (the only shape
the inspection UI submits). -/
def parseIsoDate (s : String) : Option PyDate :=
  match s.toList with
  | [y1, y2, y3, y4, '-', m1, m2, '-', d1, d2] =>
    if y1.isDigit && y2.isDigit && y3.isDigit && y4.isDigit &&
        m1.isDigit && m2.isDigit && d1.isDigit && d2.isDigit then
      let y := ((digitVal y1 * 10 + digitVal y2) * 10 + digitVal y3) * 10 + digitVal y4
      let m := digitVal m1 * 10 + digitVal m2
      let d := digitVal d1 * 10 + digitVal d2
      if 1 ≤ m ∧ m ≤ 12 ∧ 1 ≤ d ∧ d ≤ daysInMonth y m then
        some ⟨y, m, d⟩
      else
        Option.none
    else
      Option.none
  | _ => Option.none

/-- A row of the `aoi_problem_codes` mirror table (`AoiProblemCode`):
`code` is the primary key. -/
structure Problem where
  code : Int
  name : String
  part_type : Option String
  deriving DecidableEq, Repr

/-- `find_problem_name`: point lookup of a problem code in the mirror,
returning its name when present. -/
def find_problem_name (catalog : List Problem) (code : Int) : Option String :=
  (catalog.find? (fun p => p.code == code)).map (·.name)

/-- Insert/overwrite one key in an insertion-ordered string-keyed dict:
an existing key keeps its position, a new key is appended. -/
def dictInsert {α : Type} (d : List (String × α)) (kv : String × α) :
    List (String × α) :=
  if d.any (fun p => p.1 == kv.1) then
    d.map (fun p => if p.1 == kv.1 then kv else p)
  else
    d ++ [kv]

/-- Python `dict.update`: fold the entries of the second dict into the
first. -/
def dictUpdate {α : Type} (d d' : List (String × α)) : List (String × α) :=
  d'.foldl dictInsert d

/-- Dict lookup. -/
def lookupStr {α : Type} (d : List (String × α)) (k : String) : Option α :=
  (d.find? (fun p => p.1 == k)).map (·.2)

/-- A value of the accumulated error dict: either a message, or (for the
`rejections` key) the ordered list of per-row error dicts. -/
inductive ErrVal where
  | msg (s : String)
  | rowList (rows : List (List (String × String)))
  deriving DecidableEq, Repr

/-- The error aggregate carried by `ValidationError`. -/
abbrev Errors := List (String × ErrVal)

/-- Lift a flat field-to-message dict into the aggregate. -/
def liftMsgs (e : List (String × String)) : Errors :=
  e.map (fun p => (p.1, ErrVal.msg p.2))

/-- `_parse_int`: blank or absent values become 0, non-integers raise a
per-field `ValidationError`, values below `min_value` raise a per-field
`ValidationError`. -/
def _parse_int (value : PyVal) (field : String) (min_value : Option Int) :
    Except (List (String × String)) Int :=
  if value = PyVal.none ∨ value = PyVal.str "" then .ok 0
  else
    match pyInt value with
    | Option.none => .error [(field, "Must be an integer")]
    | some parsed =>
      match min_value with
      | some m =>
        if parsed < m then .error [(field, "Must be >= " ++ toString m)]
        else .ok parsed
      | Option.none => .ok parsed

/-- `_parse_date`: falsy values are rejected as missing, anything else is
converted with `str` and parsed with `date.fromisoformat`.  (The
`isinstance(value, date)` branch is unreachable for JSON payloads and is
not modelled.) -/
def _parse_date (value : PyVal) (field : String) :
    Except (List (String × String)) PyDate :=
  if value.truthy = false then .error [(field, "Date is required")]
  else
    match parseIsoDate (pyStr value) with
    | some d => .ok d
    | Option.none => .error [(field, "Invalid date")]

/-- `compute_qty_accepted`: accepted quantity, clamped at zero. -/
def compute_qty_accepted (qty_inspected qty_rejected : Int) : Int :=
  max (qty_inspected - qty_rejected) 0

/-- One entry of the inbound `rejections` list. -/
structure RejRow where
  quantity : PyVal
  problem_code : PyVal
  reference_designators : Option String
  deriving DecidableEq, Repr

/-- One entry of the inbound `board_data` list. -/
structure BoardRow where
  board_id : Option String
  reference_designators : Option String
  problem_code : PyVal
  comments : Option String
  deriving DecidableEq, Repr

/-- The inbound submission payload, flattened on its fixed access paths
(`header.date`, `header.type`, `job.*`, `lot_result.*`, `form_meta.*`):
`Option.none` on a string field means the key is absent or `null`. -/
structure Payload where
  header_date : PyVal
  header_type : Option String
  form_number : Option String
  form_rev : Option String
  customer : Option String
  assembly : Option String
  job_number : Option String
  revision : Option String
  inspector : Option String
  panels_count : PyVal
  boards_count : PyVal
  qty_inspected : PyVal
  qty_rejected : PyVal
  comments : Option String
  status : Option String
  rejections : List RejRow
  board_data : List BoardRow
  deriving DecidableEq, Repr

/-- A canonical rejection row (`quantity_value` and the parsed problem
code as the loop variables hold them; both are present on every row that
reaches the output). -/
structure RejOut where
  quantity : Option Int
  problem_code : Option Int
  reference_designators : String
  deriving DecidableEq, Repr

/-- A canonical board-data row. -/
structure BoardOut where
  board_id : Option String
  reference_designators : Option String
  problem_code : Option Int
  comments : Option String
  deriving DecidableEq, Repr

/-- The canonical record produced by `normalise_payload`. -/
structure Record where
  date : Option PyDate
  type : Option String
  form_number : String
  form_rev : String
  customer : Option String
  assembly : Option String
  job_number : Option String
  revision : Option String
  panels_count : Option Int
  boards_count : Option Int
  inspector : Option String
  qty_inspected : Int
  qty_rejected : Int
  qty_accepted : Int
  comments : Option String
  status : String
  rejections : List RejOut
  board_data : List BoardOut
  deriving DecidableEq, Repr

/-- `(value or "")` for an optional string. -/
def orEmpty (o : Option String) : String := o.getD ""

/-- `(value or "").strip() or None`: trim, then turn the empty string into
an absent value. -/
def stripOrNone (o : Option String) : Option String :=
  let t := pyStrip (orEmpty o)
  if t = "" then Option.none else some t

/-- Truthiness of an optional string field. -/
def optTruthy (o : Option String) : Bool := !(orEmpty o == "")

/-- Validate one rejection row at `index`: returns the canonical row when
the row has no errors (and then the error dict is empty), otherwise no row
and the non-empty per-row error dict. -/
def processRejRow (catalog : List Problem) (index : Nat) (item : RejRow) :
    Option RejOut × List (String × String) :=
  let qfield := "rejections[" ++ toString index ++ "].quantity"
  let qres : Option Int × List (String × String) :=
    match _parse_int item.quantity qfield (some 1) with
    | .ok v => (some v, [])
    | .error e => (Option.none, e)
  let pcres : Option Int × List (String × String) :=
    match item.problem_code with
    | .none => (Option.none, [("problem_code", "Problem code is required")])
    | pc =>
      match pyInt pc with
      | Option.none =>
        (Option.none, [("problem_code", "Problem code must be a number")])
      | some n =>
        if (find_problem_name catalog n).isNone then
          (some n, [("problem_code", "Unknown problem code")])
        else (some n, [])
  let row_errors := qres.2 ++ pcres.2
  if row_errors.isEmpty then
    (some ⟨qres.1, pcres.1, pyStrip (orEmpty item.reference_designators)⟩, [])
  else
    (Option.none, row_errors)

/-- The `for index, item in enumerate(rejections_input)` loop: valid rows
are copied to the canonical list, each failing row appends its error dict
to the (compacted) error list. -/
def processRejections (catalog : List Problem) :
    Nat → List RejRow → List RejOut × List (List (String × String))
  | _, [] => ([], [])
  | i, item :: rest =>
    let step := processRejRow catalog i item
    let acc := processRejections catalog (i + 1) rest
    match step.1 with
    | some r => (r :: acc.1, acc.2)
    | Option.none => (acc.1, step.2 :: acc.2)

/-- `any(item.values())` over the four fields of a board-data row. -/
def boardAnyTruthy (item : BoardRow) : Bool :=
  optTruthy item.board_id || optTruthy item.reference_designators ||
    item.problem_code.truthy || optTruthy item.comments

/-- `int(item["problem_code"]) if item.get("problem_code") else None`: the
bare `int` call is not wrapped in a handler, so a truthy value that does
not parse raises an uncaught `ValueError` (`.error ()`). -/
def boardProblemCode (v : PyVal) : Except Unit (Option Int) :=
  if v.truthy then
    match pyInt v with
    | some n => .ok (some n)
    | Option.none => .error ()
  else
    .ok Option.none

/-- Normalise one surviving board-data row. -/
def normBoardRow (item : BoardRow) : Except Unit BoardOut :=
  match boardProblemCode item.problem_code with
  | .error e => .error e
  | .ok pc =>
    .ok ⟨stripOrNone item.board_id, stripOrNone item.reference_designators,
      pc, stripOrNone item.comments⟩

/-- The board-data loop: all-falsy rows are skipped, the rest are
normalised in order; an uncaught `ValueError` aborts the whole call. -/
def processBoards : List BoardRow → Except Unit (List BoardOut)
  | [] => .ok []
  | item :: rest =>
    if boardAnyTruthy item then
      match normBoardRow item with
      | .error e => .error e
      | .ok row => (processBoards rest).map (row :: ·)
    else
      processBoards rest

/-- The `status` check and its error entry. -/
def stageStatus (data : Payload) : String × Errors :=
  let status_value := data.status.getD "submitted"
  if status_value = "draft" ∨ status_value = "submitted" then
    (status_value, [])
  else
    (status_value, [("status", ErrVal.msg "Status must be \x27draft\x27 or \x27submitted\x27")])

/-- The `record` dict as first initialised in `normalise_payload`. -/
def initRecord (data : Payload) (status_value : String) : Record where
  date := Option.none
  type := Option.none
  form_number := data.form_number.getD "Form-114"
  form_rev := data.form_rev.getD "Rev. 17 (9/9/2025)"
  customer := data.customer
  assembly := data.assembly
  job_number := data.job_number
  revision := data.revision
  panels_count := Option.none
  boards_count := Option.none
  inspector := data.inspector
  qty_inspected := 0
  qty_rejected := 0
  qty_accepted := 0
  comments := data.comments
  status := status_value
  rejections := []
  board_data := []

/-- The `date` section of `normalise_payload`. -/
def stageDate (data : Payload) (record : Record) (errors : Errors) :
    Record × Errors :=
  match _parse_date data.header_date "date" with
  | .ok d => ({record with date := some d}, errors)
  | .error e => (record, dictUpdate errors (liftMsgs e))

/-- The `type` section of `normalise_payload`. -/
def stageType (data : Payload) (record : Record) (errors : Errors) :
    Record × Errors :=
  match data.header_type with
  | some t =>
    if t = "SMT" ∨ t = "TH" then ({record with type := some t}, errors)
    else
      (record, dictUpdate errors
        [("type", ErrVal.msg "Type must be either \x27SMT\x27 or \x27TH\x27")])
  | Option.none =>
    (record, dictUpdate errors
      [("type", ErrVal.msg "Type must be either \x27SMT\x27 or \x27TH\x27")])

/-- The four count assignments share a single `try` block: a failure skips
the remaining parses, and fields already assigned keep their parsed
values. -/
def stageCounts (data : Payload) (record : Record) (errors : Errors) :
    Record × Errors :=
  match _parse_int data.panels_count "panels_count" (some 0) with
  | .error e => (record, dictUpdate errors (liftMsgs e))
  | .ok p =>
    let record := {record with panels_count := some p}
    match _parse_int data.boards_count "boards_count" (some 0) with
    | .error e => (record, dictUpdate errors (liftMsgs e))
    | .ok b =>
      let record := {record with boards_count := some b}
      match _parse_int data.qty_inspected "qty_inspected" (some 0) with
      | .error e => (record, dictUpdate errors (liftMsgs e))
      | .ok qi =>
        let record := {record with qty_inspected := qi}
        match _parse_int data.qty_rejected "qty_rejected" (some 0) with
        | .error e => (record, dictUpdate errors (liftMsgs e))
        | .ok qr => ({record with qty_rejected := qr}, errors)

/-- State after the status check, defaults and the date section. -/
def afterDate (data : Payload) : Record × Errors :=
  stageDate data (initRecord data (stageStatus data).1) (stageStatus data).2

/-- State after the type section. -/
def afterType (data : Payload) : Record × Errors :=
  stageType data (afterDate data).1 (afterDate data).2

/-- State after the shared count `try` block. -/
def afterCounts (data : Payload) : Record × Errors :=
  stageCounts data (afterType data).1 (afterType data).2

/-- The scalar part of `normalise_payload`: status, defaults, date, type,
counts, the cross-field check, and the recomputed accepted quantity. -/
def coreScalar (data : Payload) : Record × Errors :=
  let c := afterCounts data
  let errors :=
    if c.1.qty_rejected > c.1.qty_inspected then
      dictUpdate c.2 [("qty_rejected", ErrVal.msg "Rejected cannot exceed inspected")]
    else c.2
  ({c.1 with qty_accepted := compute_qty_accepted c.1.qty_inspected c.1.qty_rejected},
    errors)

/-- The full state of one `normalise_payload` run: the record under
construction, the accumulated error dict, and whether the board-data loop
raised an uncaught exception. -/
structure CoreResult where
  record : Record
  errors : Errors
  crash : Bool
  deriving DecidableEq, Repr

/-- `normalise_payload` up to (but excluding) the final
`if errors: raise` decision. -/
def normalise_core (catalog : List Problem) (data : Payload) : CoreResult :=
  let re := coreScalar data
  let rej := processRejections catalog 0 data.rejections
  let boards := processBoards data.board_data
  let errors :=
    if rej.2.isEmpty then re.2
    else dictUpdate re.2 [("rejections", ErrVal.rowList rej.2)]
  match boards with
  | .error _ => ⟨{re.1 with rejections := rej.1, board_data := []}, errors, true⟩
  | .ok rows => ⟨{re.1 with rejections := rej.1, board_data := rows}, errors, false⟩

/-- Outcome of `normalise_payload`: a canonical record, a structured
`ValidationError`, or an uncaught exception escaping the function. -/
inductive NResult where
  | ok (record : Record)
  | err (errors : Errors)
  | crash
  deriving DecidableEq, Repr

/-- `normalise_payload`: the board-data loop runs (and can raise an
uncaught `ValueError`) before the accumulated errors are raised; a
non-empty error dict raises `ValidationError`; otherwise the canonical
record is returned. -/
def normalise_payload (catalog : List Problem) (data : Payload) : NResult :=
  let c := normalise_core catalog data
  if c.crash then .crash
  else if c.errors.isEmpty then .ok c.record
  else .err c.errors

/-- `create_form`: `normalise_payload` runs before any session write, so
the form aggregate (whose columns copy the canonical record and whose
child rows copy its `rejections`/`board_data` lists) is persisted exactly
when normalisation returns a record. -/
def create_form (catalog : List Problem) (data : Payload) : Option Record :=
  match normalise_payload catalog data with
  | .ok r => some r
  | _ => Option.none

/-- One well-formed entry of the fetched `defects` list
(`{"id": code, "name": name, "part_type": part_type}`). -/
structure Defect where
  id : Int
  name : String
  part_type : Option String
  deriving DecidableEq, Repr

/-- A write issued against the mirror table during synchronisation. -/
inductive SyncWrite where
  | insert (code : Int)
  | update (code : Int)
  | delete (code : Int)
  deriving DecidableEq, Repr

/-- Outcome of `fetch_defect_definitions`: the two distinct failure
classes, or the cleaned defect list. -/
inductive FetchResult where
  | configError
  | requestError
  | ok (defects : List Defect)
  deriving DecidableEq, Repr

/-- Result of one `ensure_problem_codes` run: the mirror rows afterwards,
the writes issued against the session, and whether `db.session.commit()`
was called (the `changed` flag). -/
structure SyncResult where
  mirror : List Problem
  writes : List SyncWrite
  committed : Bool
  deriving DecidableEq, Repr

/-- Mutate the mirror entry holding `d.id` to carry `d`'s name and
part-type (the `problem.name = name` / `problem.part_type = part_type`
assignments). -/
def syncStepFound (ex : List Problem) (d : Defect) : List Problem :=
  ex.map (fun q => if q.code == d.id then ⟨q.code, d.name, d.part_type⟩ else q)

/-- The `for defect in defects` loop of `ensure_problem_codes`, threading
the mutated existing rows, the pending inserts, the issued writes and the
`changed` flag.  Lookups hit the `existing` dict, whose key set is fixed
when the loop starts (pending inserts are never visible to it). -/
def syncLoop (ex ins : List Problem) (ws : List SyncWrite) (ch : Bool) :
    List Defect → List Problem × List Problem × List SyncWrite × Bool
  | [] => (ex, ins, ws, ch)
  | d :: rest =>
    match ex.find? (fun p => p.code == d.id) with
    | Option.none =>
      syncLoop ex (ins ++ [⟨d.id, d.name, d.part_type⟩]) (ws ++ [.insert d.id])
        true rest
    | some p =>
      if p.name = d.name ∧ p.part_type = d.part_type then
        syncLoop ex ins ws ch rest
      else
        syncLoop (syncStepFound ex d) ins (ws ++ [.update d.id]) true rest

/-- `ensure_problem_codes`: both fetch failures are swallowed (logged) and
leave the mirror untouched with no write and no commit; on success the
loop reconciles the mirror against the incoming list, stale codes are
bulk-deleted, and `commit` runs only when something changed. -/
def ensure_problem_codes (mirror : List Problem) (fetch : FetchResult) :
    SyncResult :=
  match fetch with
  | .configError => ⟨mirror, [], false⟩
  | .requestError => ⟨mirror, [], false⟩
  | .ok defects =>
    let r := syncLoop mirror [] [] false defects
    let incoming_ids := defects.map (·.id)
    let stale_ids := (mirror.map (·.code)).filter (fun c => !(incoming_ids.contains c))
    let writes := r.2.2.1 ++ stale_ids.map SyncWrite.delete
    let changed := r.2.2.2 || !stale_ids.isEmpty
    let kept := r.1.filter (fun p => !(stale_ids.contains p.code))
    ⟨kept ++ r.2.1, writes, changed⟩

/-- Closed form of the loop's effect on one existing row: the unique
matching defect (when any) overwrites its name and part-type. -/
def updAll (ds : List Defect) (p : Problem) : Problem :=
  match ds.find? (fun d => d.id == p.code) with
  | some d => ⟨p.code, d.name, d.part_type⟩
  | Option.none => p

/-- Closed form of the pending inserts: the defects whose code is missing
from the mirror, in fetch order. -/
def insOf (ex : List Problem) (ds : List Defect) : List Problem :=
  (ds.filter (fun d => !(ex.any (fun p => p.code == d.id)))).map
    (fun d => ⟨d.id, d.name, d.part_type⟩)

/-- Closed form of the loop's writes: an insert for each missing code, an
update for each present code with changed data, in fetch order. -/
def wsOf (ex : List Problem) (ds : List Defect) : List SyncWrite :=
  ds.filterMap (fun d =>
    match ex.find? (fun p => p.code == d.id) with
    | Option.none => some (SyncWrite.insert d.id)
    | some p =>
      if p.name = d.name ∧ p.part_type = d.part_type then Option.none
      else some (SyncWrite.update d.id))

/-- The `stale_ids` set: mirror codes absent from the incoming list. -/
def staleOf (mirror : List Problem) (ds : List Defect) : List Int :=
  (mirror.map (·.code)).filter (fun c => !((ds.map (·.id)).contains c))

/-- Closed form of the mirror rows left after one successful
synchronisation: the surviving updated rows followed by the inserts. -/
def mirrorAfter (mirror : List Problem) (ds : List Defect) : List Problem :=
  (mirror.map (updAll ds)).filter (fun p => !((staleOf mirror ds).contains p.code))
    ++ insOf mirror ds

/-- A minimal syntactically valid submission: ISO date, SMT type, and all
other sections blank.  The concrete inputs below are variations of it. -/
def payloadBase : Payload where
  header_date := .str "2024-01-10"
  header_type := some "SMT"
  form_number := Option.none
  form_rev := Option.none
  customer := Option.none
  assembly := Option.none
  job_number := Option.none
  revision := Option.none
  inspector := Option.none
  panels_count := .none
  boards_count := .none
  qty_inspected := .none
  qty_rejected := .none
  comments := Option.none
  status := Option.none
  rejections := []
  board_data := []

/-- A fully valid submission: 100 inspected, 10 rejected. -/
def payloadValid : Payload :=
  { payloadBase with
    qty_inspected := PyVal.int 100
    qty_rejected := PyVal.int 10 }

/-- The canonical record `payloadValid` normalises to. -/
def recordValid : Record where
  date := some ⟨2024, 1, 10⟩
  type := some "SMT"
  form_number := "Form-114"
  form_rev := "Rev. 17 (9/9/2025)"
  customer := Option.none
  assembly := Option.none
  job_number := Option.none
  revision := Option.none
  panels_count := some 0
  boards_count := some 0
  inspector := Option.none
  qty_inspected := 100
  qty_rejected := 10
  qty_accepted := 90
  comments := Option.none
  status := "submitted"
  rejections := []
  board_data := []

/-- A catalog mirror holding the single problem code 6. -/
def catalogSolder : List Problem := [⟨6, "Insufficient Solder", Option.none⟩]

/-- Submission with two invalid count fields (`panels_count` and
`boards_count` are both non-integer strings). -/
def payloadTwoBadCounts : Payload :=
  { payloadBase with
    panels_count := PyVal.str "x"
    boards_count := PyVal.str "y" }

/-- Submission with a valid first rejection row and a second row whose
problem code 999 is not in the catalog. -/
def payloadUnknownCode : Payload :=
  { payloadBase with
    rejections := [⟨PyVal.int 1, PyVal.int 6, Option.none⟩,
      ⟨PyVal.int 1, PyVal.int 999, Option.none⟩] }

/-- Submission whose raw rejected quantity (5) exceeds its raw inspected
quantity (1) while an earlier count field (`panels_count`) is invalid. -/
def payloadRejGtInsp : Payload :=
  { payloadBase with
    panels_count := PyVal.int (-1)
    qty_inspected := PyVal.str "1"
    qty_rejected := PyVal.str "5" }

/-- Submission whose rejected quantity exceeds its inspected quantity with
every count field parseable. -/
def payloadRejGtInspClean : Payload :=
  { payloadBase with
    qty_inspected := PyVal.int 1
    qty_rejected := PyVal.int 5 }

/-- Submission with a board-data row whose problem code is a truthy,
non-numeric string. -/
def payloadBoardCrash : Payload :=
  { payloadBase with
    board_data := [⟨Option.none, Option.none, PyVal.str "abc", Option.none⟩] }

/-- Submission with a board-data row whose only non-empty field is a
whitespace-only board id. -/
def payloadBoardBlank : Payload :=
  { payloadBase with
    board_data := [⟨some "  ", Option.none, PyVal.none, Option.none⟩] }

/-- Submission with an invalid status value. -/
def payloadBadStatus : Payload :=
  { payloadBase with status := some "bogus" }

/-- Submission with one board-data row carrying padded text fields. -/
def payloadBoardPadded : Payload :=
  { payloadBase with
    board_data := [⟨some " B7 ", Option.none, PyVal.int 6, some ""⟩] }

/-- Mirror rows 1, 2, 3 for the reconciliation example. -/
def mirror123 : List Problem :=
  [⟨1, "a", Option.none⟩, ⟨2, "b", Option.none⟩, ⟨3, "c", Option.none⟩]

/-- Incoming defect list 2, 3, 4 (2 and 3 unchanged) for the
reconciliation example. -/
def defects234 : List Defect :=
  [⟨2, "b", Option.none⟩, ⟨3, "c", Option.none⟩, ⟨4, "d", Option.none⟩]

theorem dictInsert_ne_nil {α : Type} (d : List (String × α)) (kv : String × α) :
    dictInsert d kv ≠ [] := by
  unfold dictInsert
  split
  · next h =>
    intro hc
    rw [List.map_eq_nil_iff] at hc
    subst hc
    simp at h
  · exact List.append_ne_nil_of_right_ne_nil _ (by simp)

theorem lookupStr_dictInsert_self {α : Type} (d : List (String × α)) (k : String) (v : α) :
    lookupStr (dictInsert d (k, v)) k = some v := by
  unfold dictInsert lookupStr
  split
  · next h =>
    have hfind : ∀ d' : List (String × α), d'.any (fun p => p.1 == k) = true →
        (d'.map (fun p => if p.1 == k then (k, v) else p)).find?
          (fun p => p.1 == k) = some (k, v) := by
      intro d'
      induction d' with
      | nil => intro hx; simp at hx
      | cons hd tl ih =>
        intro hx
        by_cases hk : (hd.1 == k) = true
        · simp only [List.map_cons, if_pos hk]
          exact List.find?_cons_of_pos _ (by simp)
        · simp only [List.map_cons, if_neg hk]
          rw [@List.find?_cons_of_neg (String × α) (fun q => q.1 == k) hd _ hk]
          apply ih
          simpa [hk] using hx
    rw [hfind d h]
    rfl
  · rw [List.find?_append]
    have hnone : d.find? (fun p => p.1 == k) = Option.none := by
      rw [List.find?_eq_none]
      intro x hx hpx
      next h => exact h (List.any_eq_true.mpr ⟨x, hx, hpx⟩)
    rw [hnone]
    simp [List.find?]

theorem lookupStr_dictInsert_ne {α : Type} (d : List (String × α)) (kv : String × α)
    (k : String) (hne : k ≠ kv.1) :
    lookupStr (dictInsert d kv) k = lookupStr d k := by
  unfold dictInsert lookupStr
  split
  · rw [List.find?_map]
    have hfun : ((fun p : String × α => p.1 == k) ∘
        (fun p => if p.1 == kv.1 then kv else p)) = (fun p : String × α => p.1 == k) := by
      funext p
      by_cases hp : (p.1 == kv.1) = true
      · have hp' : p.1 = kv.1 := by simpa using hp
        simp only [Function.comp_apply]
        rw [if_pos hp, hp']
      · simp only [Function.comp_apply, if_neg hp]
    rw [hfun]
    cases hf : d.find? (fun p => p.1 == k) with
    | none => simp
    | some p =>
      have hp1 : p.1 ≠ kv.1 := by
        have hp : p.1 = k := by simpa using List.find?_some hf
        rw [hp]; exact hne
      simp [Option.map, if_neg (by simpa using hp1)]
  · rw [List.find?_append]
    have : [kv].find? (fun p => p.1 == k) = Option.none := by
      rw [List.find?_eq_none]
      intro x hx hpx
      have hx' : x = kv := by simpa using hx
      have hxk : x.1 = k := by simpa using hpx
      have hkv : kv.1 = k := by rw [← hx']; exact hxk
      exact hne hkv.symm
    rw [this]
    simp

theorem lookupStr_dictUpdate_ne_none {α : Type} (d d' : List (String × α)) (k : String)
    (h : lookupStr d k ≠ Option.none) :
    lookupStr (dictUpdate d d') k ≠ Option.none := by
  induction d' generalizing d with
  | nil => exact h
  | cons hd tl ih =>
    refine ih _ ?_
    by_cases hk : k = hd.1
    · subst hk
      have := lookupStr_dictInsert_self d hd.1 hd.2
      simp only [this]
      simp
    · rw [lookupStr_dictInsert_ne d hd k hk]
      exact h

theorem dictUpdate_ne_nil_left {α : Type} (d d' : List (String × α)) (h : d ≠ []) :
    dictUpdate d d' ≠ [] := by
  induction d' generalizing d with
  | nil => exact h
  | cons hd tl ih => exact ih _ (dictInsert_ne_nil d hd)

theorem dictUpdate_ne_nil_right {α : Type} (d d' : List (String × α)) (h : d' ≠ []) :
    dictUpdate d d' ≠ [] := by
  cases d' with
  | nil => exact absurd rfl h
  | cons hd tl =>
    exact dictUpdate_ne_nil_left (dictInsert d hd) tl (dictInsert_ne_nil d hd)

theorem lookupStr_dictUpdate_single_self {α : Type} (d : List (String × α)) (k : String)
    (v : α) : lookupStr (dictUpdate d [(k, v)]) k = some v :=
  lookupStr_dictInsert_self d k v

theorem lookupStr_dictUpdate_single_ne {α : Type} (d : List (String × α))
    (k k' : String) (v : α) (hne : k ≠ k') :
    lookupStr (dictUpdate d [(k', v)]) k = lookupStr d k :=
  lookupStr_dictInsert_ne d (k', v) k hne

theorem ne_nil_of_lookupStr_ne_none {α : Type} (d : List (String × α)) (k : String)
    (h : lookupStr d k ≠ Option.none) : d ≠ [] := by
  intro hc
  subst hc
  exact h rfl

theorem liftMsgs_ne_nil (e : List (String × String)) (h : e ≠ []) : liftMsgs e ≠ [] := by
  simpa [liftMsgs, List.map_eq_nil_iff] using h

theorem parse_int_error_ne_nil (v : PyVal) (f : String) (m : Option Int)
    (e : List (String × String)) (h : _parse_int v f m = .error e) : e ≠ [] := by
  unfold _parse_int at h
  split at h
  · exact Except.noConfusion h
  · split at h
    · injection h with h1
      rw [← h1]
      simp
    · split at h
      · split at h
        · injection h with h1
          rw [← h1]
          simp
        · exact Except.noConfusion h
      · exact Except.noConfusion h

theorem parse_date_error_ne_nil (v : PyVal) (f : String)
    (e : List (String × String)) (h : _parse_date v f = .error e) : e ≠ [] := by
  unfold _parse_date at h
  split at h
  · injection h with h1
    rw [← h1]
    simp
  · split at h
    · exact Except.noConfusion h
    · injection h with h1
      rw [← h1]
      simp

theorem afterDate_preserve (data : Payload) (P : Errors → Prop)
    (hP : ∀ d d', P d → P (dictUpdate d d'))
    (h : P (stageStatus data).2) : P (afterDate data).2 := by
  unfold afterDate stageDate
  cases hm : _parse_date data.header_date "date" with
  | ok d => simpa using h
  | error e =>
    simp only [hm]
    exact hP _ _ h

theorem afterType_preserve (data : Payload) (P : Errors → Prop)
    (hP : ∀ d d', P d → P (dictUpdate d d'))
    (h : P (afterDate data).2) : P (afterType data).2 := by
  unfold afterType stageType
  cases ht : data.header_type with
  | none =>
    simp only [ht]
    exact hP _ _ h
  | some t =>
    simp only [ht]
    split
    · simpa using h
    · exact hP _ _ h

theorem afterCounts_preserve (data : Payload) (P : Errors → Prop)
    (hP : ∀ d d', P d → P (dictUpdate d d'))
    (h : P (afterType data).2) : P (afterCounts data).2 := by
  unfold afterCounts stageCounts
  cases h1 : _parse_int data.panels_count "panels_count" (some 0) with
  | error e =>
    simp only [h1]
    exact hP _ _ h
  | ok p =>
    simp only [h1]
    cases h2 : _parse_int data.boards_count "boards_count" (some 0) with
    | error e =>
      simp only [h2]
      exact hP _ _ h
    | ok b =>
      simp only [h2]
      cases h3 : _parse_int data.qty_inspected "qty_inspected" (some 0) with
      | error e =>
        simp only [h3]
        exact hP _ _ h
      | ok qi =>
        simp only [h3]
        cases h4 : _parse_int data.qty_rejected "qty_rejected" (some 0) with
        | error e =>
          simp only [h4]
          exact hP _ _ h
        | ok qr =>
          simp only [h4]
          exact h

theorem coreScalar_preserve (data : Payload) (P : Errors → Prop)
    (hP : ∀ d d', P d → P (dictUpdate d d'))
    (h : P (afterCounts data).2) : P (coreScalar data).2 := by
  unfold coreScalar
  dsimp only
  split
  · exact hP _ _ h
  · exact h

theorem core_preserve (catalog : List Problem) (data : Payload) (P : Errors → Prop)
    (hP : ∀ d d', P d → P (dictUpdate d d'))
    (h : P (coreScalar data).2) : P (normalise_core catalog data).errors := by
  unfold normalise_core
  dsimp only
  cases hb : processBoards data.board_data with
  | error e =>
    simp only [hb]
    split
    · exact h
    · exact hP _ _ h
  | ok rows =>
    simp only [hb]
    split
    · exact h
    · exact hP _ _ h

theorem core_errors_ne_nil (catalog : List Problem) (data : Payload)
    (h : (coreScalar data).2 ≠ []) : (normalise_core catalog data).errors ≠ [] :=
  core_preserve catalog data (· ≠ []) (fun _ _ hd => dictUpdate_ne_nil_left _ _ hd) h

theorem core_lookup_ne_none (catalog : List Problem) (data : Payload) (k : String)
    (h : lookupStr (coreScalar data).2 k ≠ Option.none) :
    lookupStr (normalise_core catalog data).errors k ≠ Option.none :=
  core_preserve catalog data (fun d => lookupStr d k ≠ Option.none)
    (fun _ _ hd => lookupStr_dictUpdate_ne_none _ _ _ hd) h

theorem normalise_ok_inv (catalog : List Problem) (data : Payload) (r : Record)
    (h : normalise_payload catalog data = .ok r) :
    (normalise_core catalog data).errors = [] ∧
      (normalise_core catalog data).crash = false ∧
      (normalise_core catalog data).record = r := by
  unfold normalise_payload at h
  dsimp only at h
  split at h
  · exact NResult.noConfusion h
  · next hc =>
    split at h
    · next he =>
      injection h with h1
      exact ⟨List.isEmpty_iff.mp he, Bool.not_eq_true _ ▸ (by simpa using hc), h1⟩
    · exact NResult.noConfusion h

theorem coreScalar_fields (data : Payload) :
    (coreScalar data).1.qty_accepted =
      compute_qty_accepted (coreScalar data).1.qty_inspected
        (coreScalar data).1.qty_rejected := by
  unfold coreScalar
  dsimp only

theorem core_record_qty (catalog : List Problem) (data : Payload) :
    (normalise_core catalog data).record.qty_accepted =
      compute_qty_accepted (normalise_core catalog data).record.qty_inspected
        (normalise_core catalog data).record.qty_rejected := by
  unfold normalise_core
  dsimp only
  cases hb : processBoards data.board_data with
  | error e =>
    simp only [hb]
    simpa using coreScalar_fields data
  | ok rows =>
    simp only [hb]
    simpa using coreScalar_fields data

theorem afterCounts_nil_of_core (catalog : List Problem) (data : Payload)
    (h : (normalise_core catalog data).errors = []) : (afterCounts data).2 = [] := by
  by_contra hne
  exact core_errors_ne_nil catalog data
    (coreScalar_preserve data (· ≠ []) (fun _ _ hd => dictUpdate_ne_nil_left _ _ hd) hne) h

theorem afterCounts_ok_inv (data : Payload) (h : (afterCounts data).2 = []) :
    ∃ p b qi qr : Int,
      _parse_int data.panels_count "panels_count" (some 0) = .ok p ∧
      _parse_int data.boards_count "boards_count" (some 0) = .ok b ∧
      _parse_int data.qty_inspected "qty_inspected" (some 0) = .ok qi ∧
      _parse_int data.qty_rejected "qty_rejected" (some 0) = .ok qr ∧
      (afterCounts data).1.panels_count = some p ∧
      (afterCounts data).1.boards_count = some b ∧
      (afterCounts data).1.qty_inspected = qi ∧
      (afterCounts data).1.qty_rejected = qr := by
  unfold afterCounts stageCounts at h ⊢
  cases h1 : _parse_int data.panels_count "panels_count" (some 0) with
  | error e =>
    simp only [h1] at h
    exact absurd h
      (dictUpdate_ne_nil_right _ _ (liftMsgs_ne_nil e (parse_int_error_ne_nil _ _ _ _ h1)))
  | ok p =>
    simp only [h1] at h ⊢
    cases h2 : _parse_int data.boards_count "boards_count" (some 0) with
    | error e =>
      simp only [h2] at h
      exact absurd h
        (dictUpdate_ne_nil_right _ _ (liftMsgs_ne_nil e (parse_int_error_ne_nil _ _ _ _ h2)))
    | ok b =>
      simp only [h2] at h ⊢
      cases h3 : _parse_int data.qty_inspected "qty_inspected" (some 0) with
      | error e =>
        simp only [h3] at h
        exact absurd h
          (dictUpdate_ne_nil_right _ _ (liftMsgs_ne_nil e (parse_int_error_ne_nil _ _ _ _ h3)))
      | ok qi =>
        simp only [h3] at h ⊢
        cases h4 : _parse_int data.qty_rejected "qty_rejected" (some 0) with
        | error e =>
          simp only [h4] at h
          exact absurd h
            (dictUpdate_ne_nil_right _ _ (liftMsgs_ne_nil e (parse_int_error_ne_nil _ _ _ _ h4)))
        | ok qr =>
          exact ⟨p, b, qi, qr, rfl, rfl, rfl, rfl, by simp, by simp, by simp, by simp⟩

theorem core_record_counts (catalog : List Problem) (data : Payload) :
    (normalise_core catalog data).record.panels_count = (afterCounts data).1.panels_count ∧
    (normalise_core catalog data).record.boards_count = (afterCounts data).1.boards_count ∧
    (normalise_core catalog data).record.qty_inspected = (afterCounts data).1.qty_inspected ∧
    (normalise_core catalog data).record.qty_rejected = (afterCounts data).1.qty_rejected := by
  unfold normalise_core coreScalar
  dsimp only
  cases hb : processBoards data.board_data <;> simp [hb]

/-- C3: for every payload that normalises successfully, the canonical
record's accepted quantity equals `max(qty_inspected − qty_rejected, 0)`,
recomputed from the validated quantities and never taken from an input
field. -/
theorem qty_accepted_recomputed (catalog : List Problem) (data : Payload) (r : Record)
    (h : normalise_payload catalog data = .ok r) :
    r.qty_accepted = max (r.qty_inspected - r.qty_rejected) 0 := by
  obtain ⟨-, -, hr⟩ := normalise_ok_inv catalog data r h
  rw [← hr]
  simpa [compute_qty_accepted] using core_record_qty catalog data

theorem qty_accepted_recomputed_witness :
    recordValid.qty_accepted = max (recordValid.qty_inspected - recordValid.qty_rejected) 0 :=
  qty_accepted_recomputed [] payloadValid recordValid (by decide)

/-- C8: both fetch failure classes (missing configuration and failed
request) are swallowed inside the synchroniser: it returns normally and
the mirror sees no write, no commit and no change. -/
theorem sync_failure_no_change : ∀ mirror : List Problem,
    ensure_problem_codes mirror .configError = ⟨mirror, [], false⟩ ∧
      ensure_problem_codes mirror .requestError = ⟨mirror, [], false⟩ :=
  fun _ => ⟨rfl, rfl⟩

/-- C10: for each of the four count fields (`panels_count`,
`boards_count`, `qty_inspected`, `qty_rejected`, all parsed with
`_parse_int` at minimum 0): blank or absent input is treated as 0, a
non-integer input yields that field's integer error, a negative input
yields that field's minimum error, and a successfully normalised record
carries 0 for a blank count. -/
theorem count_field_rules : ∀ field : String,
    (_parse_int PyVal.none field (some 0) = .ok 0) ∧
    (_parse_int (PyVal.str "") field (some 0) = .ok 0) ∧
    (∀ s : String, s ≠ "" → pyIntOfString s = Option.none →
      _parse_int (PyVal.str s) field (some 0) = .error [(field, "Must be an integer")]) ∧
    (∀ n : Int, n < 0 →
      _parse_int (PyVal.int n) field (some 0) = .error [(field, "Must be >= 0")]) ∧
    (∀ (s : String) (n : Int), pyIntOfString s = some n → n < 0 →
      _parse_int (PyVal.str s) field (some 0) = .error [(field, "Must be >= 0")]) ∧
    (∀ (catalog : List Problem) (data : Payload) (r : Record),
      normalise_payload catalog data = .ok r →
      (data.panels_count = PyVal.none → r.panels_count = some 0) ∧
      (data.boards_count = PyVal.none → r.boards_count = some 0) ∧
      (data.qty_inspected = PyVal.none → r.qty_inspected = 0) ∧
      (data.qty_rejected = PyVal.none → r.qty_rejected = 0)) := by
  intro field
  have hzero : ("Must be >= " ++ toString (0 : Int)) = "Must be >= 0" := by decide
  refine ⟨by simp [_parse_int], by simp [_parse_int], ?_, ?_, ?_, ?_⟩
  · intro s hs hp
    simp [_parse_int, pyInt, hs, hp]
  · intro n hn
    rw [← hzero]
    simp [_parse_int, pyInt, hn]
  · intro s n hp hn
    have hs : s ≠ "" := by
      intro hc
      subst hc
      simp [pyIntOfString, pyStripList, digitsOf] at hp
    rw [← hzero]
    simp [_parse_int, pyInt, hs, hp, hn]
  · intro catalog data r h
    obtain ⟨he, -, hr⟩ := normalise_ok_inv catalog data r h
    obtain ⟨p, b, qi, qr, h1, h2, h3, h4, e1, e2, e3, e4⟩ :=
      afterCounts_ok_inv data (afterCounts_nil_of_core catalog data he)
    obtain ⟨c1, c2, c3, c4⟩ := core_record_counts catalog data
    refine ⟨?_, ?_, ?_, ?_⟩
    · intro hv
      rw [hv] at h1
      rw [(by simp [_parse_int] : _parse_int PyVal.none "panels_count" (some 0) = .ok 0)] at h1
      injection h1 with h0
      rw [← hr, c1, e1, ← h0]
    · intro hv
      rw [hv] at h2
      rw [(by simp [_parse_int] : _parse_int PyVal.none "boards_count" (some 0) = .ok 0)] at h2
      injection h2 with h0
      rw [← hr, c2, e2, ← h0]
    · intro hv
      rw [hv] at h3
      rw [(by simp [_parse_int] : _parse_int PyVal.none "qty_inspected" (some 0) = .ok 0)] at h3
      injection h3 with h0
      rw [← hr, c3, e3, ← h0]
    · intro hv
      rw [hv] at h4
      rw [(by simp [_parse_int] : _parse_int PyVal.none "qty_rejected" (some 0) = .ok 0)] at h4
      injection h4 with h0
      rw [← hr, c4, e4, ← h0]

theorem count_field_rules_witness :
    _parse_int (PyVal.str "7x") "panels_count" (some 0)
        = .error [("panels_count", "Must be an integer")] ∧
      _parse_int (PyVal.int (-3)) "qty_rejected" (some 0)
        = .error [("qty_rejected", "Must be >= 0")] ∧
      recordValid.panels_count = some 0 :=
  ⟨(count_field_rules "panels_count").2.2.1 "7x" (by decide) (by decide),
    (count_field_rules "qty_rejected").2.2.2.1 (-3) (by decide),
    ((count_field_rules "panels_count").2.2.2.2.2 [] payloadValid recordValid
        (by decide)).1 (by decide)⟩

theorem parse_date_error_shape (v : PyVal) (f : String) (e : List (String × String))
    (h : _parse_date v f = .error e) :
    e = [(f, "Date is required")] ∨ e = [(f, "Invalid date")] := by
  unfold _parse_date at h
  split at h
  · injection h with h1
    exact Or.inl h1.symm
  · split at h
    · exact Except.noConfusion h
    · injection h with h1
      exact Or.inr h1.symm

theorem parse_int_error_shape (v : PyVal) (f : String) (m : Option Int)
    (e : List (String × String)) (h : _parse_int v f m = .error e) :
    ∃ msg, e = [(f, msg)] := by
  unfold _parse_int at h
  split at h
  · exact Except.noConfusion h
  · split at h
    · injection h with h1
      exact ⟨"Must be an integer", h1.symm⟩
    · split at h
      · split at h
        · injection h with h1
          exact ⟨_, h1.symm⟩
        · exact Except.noConfusion h
      · exact Except.noConfusion h

theorem lookupStr_dictUpdate_liftMsgs_self (d : Errors) (k m : String) :
    lookupStr (dictUpdate d (liftMsgs [(k, m)])) k = some (ErrVal.msg m) :=
  lookupStr_dictUpdate_single_self d k (ErrVal.msg m)

theorem status_to_core (catalog : List Problem) (data : Payload) (k : String)
    (h : lookupStr (stageStatus data).2 k ≠ Option.none) :
    lookupStr (normalise_core catalog data).errors k ≠ Option.none :=
  core_preserve catalog data (fun d => lookupStr d k ≠ Option.none)
    (fun _ _ hd => lookupStr_dictUpdate_ne_none _ _ _ hd)
    (coreScalar_preserve data (fun d => lookupStr d k ≠ Option.none)
      (fun _ _ hd => lookupStr_dictUpdate_ne_none _ _ _ hd)
      (afterCounts_preserve data (fun d => lookupStr d k ≠ Option.none)
        (fun _ _ hd => lookupStr_dictUpdate_ne_none _ _ _ hd)
        (afterType_preserve data (fun d => lookupStr d k ≠ Option.none)
          (fun _ _ hd => lookupStr_dictUpdate_ne_none _ _ _ hd)
          (afterDate_preserve data (fun d => lookupStr d k ≠ Option.none)
            (fun _ _ hd => lookupStr_dictUpdate_ne_none _ _ _ hd)
            h))))

theorem afterDate_to_core (catalog : List Problem) (data : Payload) (k : String)
    (h : lookupStr (afterDate data).2 k ≠ Option.none) :
    lookupStr (normalise_core catalog data).errors k ≠ Option.none :=
  core_preserve catalog data (fun d => lookupStr d k ≠ Option.none)
    (fun _ _ hd => lookupStr_dictUpdate_ne_none _ _ _ hd)
    (coreScalar_preserve data (fun d => lookupStr d k ≠ Option.none)
      (fun _ _ hd => lookupStr_dictUpdate_ne_none _ _ _ hd)
      (afterCounts_preserve data (fun d => lookupStr d k ≠ Option.none)
        (fun _ _ hd => lookupStr_dictUpdate_ne_none _ _ _ hd)
        (afterType_preserve data (fun d => lookupStr d k ≠ Option.none)
          (fun _ _ hd => lookupStr_dictUpdate_ne_none _ _ _ hd)
          h)))

theorem afterType_to_core (catalog : List Problem) (data : Payload) (k : String)
    (h : lookupStr (afterType data).2 k ≠ Option.none) :
    lookupStr (normalise_core catalog data).errors k ≠ Option.none :=
  core_preserve catalog data (fun d => lookupStr d k ≠ Option.none)
    (fun _ _ hd => lookupStr_dictUpdate_ne_none _ _ _ hd)
    (coreScalar_preserve data (fun d => lookupStr d k ≠ Option.none)
      (fun _ _ hd => lookupStr_dictUpdate_ne_none _ _ _ hd)
      (afterCounts_preserve data (fun d => lookupStr d k ≠ Option.none)
        (fun _ _ hd => lookupStr_dictUpdate_ne_none _ _ _ hd)
        h))

theorem afterCounts_to_core (catalog : List Problem) (data : Payload) (k : String)
    (h : lookupStr (afterCounts data).2 k ≠ Option.none) :
    lookupStr (normalise_core catalog data).errors k ≠ Option.none :=
  core_preserve catalog data (fun d => lookupStr d k ≠ Option.none)
    (fun _ _ hd => lookupStr_dictUpdate_ne_none _ _ _ hd)
    (coreScalar_preserve data (fun d => lookupStr d k ≠ Option.none)
      (fun _ _ hd => lookupStr_dictUpdate_ne_none _ _ _ hd)
      h)

/-- C1 counterexample: in `payloadTwoBadCounts` both `panels_count` and
`boards_count` hold non-integer strings, yet the raised aggregate holds an
entry only for `panels_count` — the shared `try` block around the four
count parses stops at the first failure, so the aggregate does not contain
an entry for every invalid field. -/
theorem counts_not_accumulated_counterexample :
    _parse_int payloadTwoBadCounts.boards_count "boards_count" (some 0)
        = .error [("boards_count", "Must be an integer")] ∧
      normalise_payload [] payloadTwoBadCounts
        = .err [("panels_count", ErrVal.msg "Must be an integer")] ∧
      lookupStr (normalise_core [] payloadTwoBadCounts).errors "boards_count"
        = Option.none :=
  ⟨by decide, by decide, by decide⟩

/-- C1 amended: validation accumulates failures across the independent
sections (status, date, type, the count block, and later the rejection
rows) before any error is raised, and an `ok` result is only produced with
an empty aggregate (no partial canonical record); but within the four
count fields parsing short-circuits, so only the first failing count field
is reported (an earlier count failure masks the later ones). -/
theorem errors_accumulated_amended (catalog : List Problem) (data : Payload) :
    ((stageStatus data).2 ≠ [] →
      lookupStr (normalise_core catalog data).errors "status" ≠ Option.none) ∧
    (∀ e, _parse_date data.header_date "date" = .error e →
      lookupStr (normalise_core catalog data).errors "date" ≠ Option.none) ∧
    ((∀ t, data.header_type = some t → ¬(t = "SMT" ∨ t = "TH")) →
      lookupStr (normalise_core catalog data).errors "type" ≠ Option.none) ∧
    (∀ e, _parse_int data.panels_count "panels_count" (some 0) = .error e →
      lookupStr (normalise_core catalog data).errors "panels_count" ≠ Option.none) ∧
    (∀ p e, _parse_int data.panels_count "panels_count" (some 0) = .ok p →
      _parse_int data.boards_count "boards_count" (some 0) = .error e →
      lookupStr (normalise_core catalog data).errors "boards_count" ≠ Option.none) ∧
    (∀ p b e, _parse_int data.panels_count "panels_count" (some 0) = .ok p →
      _parse_int data.boards_count "boards_count" (some 0) = .ok b →
      _parse_int data.qty_inspected "qty_inspected" (some 0) = .error e →
      lookupStr (normalise_core catalog data).errors "qty_inspected" ≠ Option.none) ∧
    (∀ p b qi e, _parse_int data.panels_count "panels_count" (some 0) = .ok p →
      _parse_int data.boards_count "boards_count" (some 0) = .ok b →
      _parse_int data.qty_inspected "qty_inspected" (some 0) = .ok qi →
      _parse_int data.qty_rejected "qty_rejected" (some 0) = .error e →
      lookupStr (normalise_core catalog data).errors "qty_rejected" ≠ Option.none) ∧
    (∀ r, normalise_payload catalog data = .ok r →
      (normalise_core catalog data).errors = []) := by
  refine ⟨?_, ?_, ?_, ?_, ?_, ?_, ?_, ?_⟩
  · intro h
    apply status_to_core
    unfold stageStatus at h ⊢
    dsimp only at h ⊢
    split at h
    · simp at h
    · next hs =>
      rw [if_neg hs]
      simp [lookupStr, List.find?]
  · intro e he
    apply afterDate_to_core
    unfold afterDate stageDate
    simp only [he]
    rcases parse_date_error_shape _ _ _ he with h1 | h1 <;>
      · subst h1
        rw [lookupStr_dictUpdate_liftMsgs_self]
        simp
  · intro ht
    apply afterType_to_core
    unfold afterType stageType
    cases hv : data.header_type with
    | none =>
      simp only [hv]
      rw [lookupStr_dictUpdate_single_self]
      simp
    | some t =>
      simp only [hv]
      rw [if_neg (ht t hv)]
      rw [lookupStr_dictUpdate_single_self]
      simp
  · intro e he
    apply afterCounts_to_core
    unfold afterCounts stageCounts
    simp only [he]
    obtain ⟨msg, hmsg⟩ := parse_int_error_shape _ _ _ _ he
    subst hmsg
    rw [lookupStr_dictUpdate_liftMsgs_self]
    simp
  · intro p e hp he
    apply afterCounts_to_core
    unfold afterCounts stageCounts
    simp only [hp, he]
    obtain ⟨msg, hmsg⟩ := parse_int_error_shape _ _ _ _ he
    subst hmsg
    rw [lookupStr_dictUpdate_liftMsgs_self]
    simp
  · intro p b e hp hb he
    apply afterCounts_to_core
    unfold afterCounts stageCounts
    simp only [hp, hb, he]
    obtain ⟨msg, hmsg⟩ := parse_int_error_shape _ _ _ _ he
    subst hmsg
    rw [lookupStr_dictUpdate_liftMsgs_self]
    simp
  · intro p b qi e hp hb hqi he
    apply afterCounts_to_core
    unfold afterCounts stageCounts
    simp only [hp, hb, hqi, he]
    obtain ⟨msg, hmsg⟩ := parse_int_error_shape _ _ _ _ he
    subst hmsg
    rw [lookupStr_dictUpdate_liftMsgs_self]
    simp
  · intro r h
    exact (normalise_ok_inv catalog data r h).1

theorem errors_accumulated_amended_witness :
    lookupStr (normalise_core [] payloadBadStatus).errors "status" ≠ Option.none :=
  (errors_accumulated_amended [] payloadBadStatus).1 (by decide)

/-- C4 counterexample: in `payloadRejGtInsp` the raw rejected quantity
parses to 5 and the raw inspected quantity to 1 (so parsed rejected
exceeds parsed inspected), yet because the earlier `panels_count` parse
fails inside the shared try block the quantity fields keep their 0
defaults and validation fails with no rejected-exceeds-inspected error on
`qty_rejected`. -/
theorem rej_gt_insp_counterexample :
    _parse_int payloadRejGtInsp.qty_inspected "qty_inspected" (some 0) = .ok 1 ∧
      _parse_int payloadRejGtInsp.qty_rejected "qty_rejected" (some 0) = .ok 5 ∧
      (5 : Int) > 1 ∧
      normalise_payload [] payloadRejGtInsp
        = .err [("panels_count", ErrVal.msg "Must be >= 0")] ∧
      lookupStr (normalise_core [] payloadRejGtInsp).errors "qty_rejected"
        = Option.none :=
  ⟨by decide, by decide, by decide, by decide, by decide⟩

/-- C4 amended: whenever all four count fields parse successfully and the
parsed rejected quantity exceeds the parsed inspected quantity, validation
records the dedicated rejected-exceeds-inspected error on `qty_rejected`
and no form aggregate is persisted. -/
theorem rej_gt_insp_amended (catalog : List Problem) (data : Payload) (p b qi qr : Int)
    (hp : _parse_int data.panels_count "panels_count" (some 0) = .ok p)
    (hb : _parse_int data.boards_count "boards_count" (some 0) = .ok b)
    (hqi : _parse_int data.qty_inspected "qty_inspected" (some 0) = .ok qi)
    (hqr : _parse_int data.qty_rejected "qty_rejected" (some 0) = .ok qr)
    (hgt : qr > qi) :
    lookupStr (normalise_core catalog data).errors "qty_rejected"
        = some (ErrVal.msg "Rejected cannot exceed inspected") ∧
      create_form catalog data = Option.none := by
  have h_qi : (afterCounts data).1.qty_inspected = qi := by
    unfold afterCounts stageCounts
    simp only [hp, hb, hqi, hqr]
  have h_qr : (afterCounts data).1.qty_rejected = qr := by
    unfold afterCounts stageCounts
    simp only [hp, hb, hqi, hqr]
  have hcond : (afterCounts data).1.qty_rejected > (afterCounts data).1.qty_inspected := by
    rw [h_qi, h_qr]
    exact hgt
  have hcs : lookupStr (coreScalar data).2 "qty_rejected"
      = some (ErrVal.msg "Rejected cannot exceed inspected") := by
    unfold coreScalar
    dsimp only
    rw [if_pos hcond]
    exact lookupStr_dictUpdate_single_self _ _ _
  have hcore : lookupStr (normalise_core catalog data).errors "qty_rejected"
      = some (ErrVal.msg "Rejected cannot exceed inspected") := by
    unfold normalise_core
    dsimp only
    cases hbds : processBoards data.board_data with
    | error e =>
      simp only [hbds]
      split
      · exact hcs
      · rw [lookupStr_dictUpdate_single_ne _ _ _ _ (by decide)]
        exact hcs
    | ok rows =>
      simp only [hbds]
      split
      · exact hcs
      · rw [lookupStr_dictUpdate_single_ne _ _ _ _ (by decide)]
        exact hcs
  have hne : (normalise_core catalog data).errors ≠ [] :=
    ne_nil_of_lookupStr_ne_none _ _ (by rw [hcore]; simp)
  refine ⟨hcore, ?_⟩
  unfold create_form normalise_payload
  dsimp only
  by_cases hc : (normalise_core catalog data).crash = true
  · rw [if_pos hc]
  · rw [if_neg hc, if_neg (by simpa [List.isEmpty_iff] using hne)]

theorem rej_gt_insp_amended_witness :
    lookupStr (normalise_core [] payloadRejGtInspClean).errors "qty_rejected"
        = some (ErrVal.msg "Rejected cannot exceed inspected") ∧
      create_form [] payloadRejGtInspClean = Option.none :=
  rej_gt_insp_amended [] payloadRejGtInspClean 0 0 1 5
    (by decide) (by decide) (by decide) (by decide) (by decide)

theorem create_form_none_of_errors (catalog : List Problem) (data : Payload)
    (h : (normalise_core catalog data).errors ≠ []) :
    create_form catalog data = Option.none := by
  unfold create_form normalise_payload
  dsimp only
  by_cases hc : (normalise_core catalog data).crash = true
  · rw [if_pos hc]
  · rw [if_neg hc, if_neg (by simpa [List.isEmpty_iff] using h)]

theorem processRejRow_cases (catalog : List Problem) (i : Nat) (x : RejRow) :
    ((processRejRow catalog i x).1.isSome ∧ (processRejRow catalog i x).2 = []) ∨
      ((processRejRow catalog i x).1 = Option.none ∧ (processRejRow catalog i x).2 ≠ []) := by
  unfold processRejRow
  dsimp only
  split
  · next hemp => exact Or.inl ⟨rfl, rfl⟩
  · next hemp => exact Or.inr ⟨rfl, by simpa [List.isEmpty_iff] using hemp⟩

theorem unknown_code_row (catalog : List Problem) (j : Nat) (it : RejRow) (n : Int)
    (hpc : it.problem_code = PyVal.int n)
    (hfind : find_problem_name catalog n = Option.none) :
    (processRejRow catalog j it).1 = Option.none ∧
      ("problem_code", "Unknown problem code") ∈ (processRejRow catalog j it).2 := by
  unfold processRejRow
  dsimp only
  rw [hpc]
  cases hq : _parse_int it.quantity ("rejections[" ++ toString j ++ "].quantity") (some 1) with
  | ok v =>
    simp only [pyInt, hfind, Option.isNone_none, if_pos]
    rw [if_neg (by simp [List.isEmpty_iff])]
    exact ⟨rfl, by simp⟩
  | error e =>
    simp only [pyInt, hfind, Option.isNone_none, if_pos]
    rw [if_neg (by simp [List.isEmpty_iff, List.append_eq_nil])]
    exact ⟨rfl, List.mem_append_right _ (by simp)⟩

theorem mem_enumFrom_of_mem {α : Type} (x : α) (l : List α) (hx : x ∈ l) :
    ∀ n : Nat, ∃ j, (j, x) ∈ l.enumFrom n := by
  induction l with
  | nil => cases hx
  | cons hd tl ih =>
    intro n
    rcases List.mem_cons.mp hx with h1 | h1
    · subst h1
      exact ⟨n, by simp [List.enumFrom_cons]⟩
    · obtain ⟨j, hj⟩ := ih h1 (n + 1)
      exact ⟨j, by simp [List.enumFrom_cons, hj]⟩

theorem processRejections_eq (catalog : List Problem) (items : List RejRow) :
    ∀ i : Nat,
      processRejections catalog i items
        = (((items.enumFrom i).map (fun p => processRejRow catalog p.1 p.2)).filterMap (·.1),
           ((items.enumFrom i).map (fun p => (processRejRow catalog p.1 p.2).2)).filter
             (fun l => !l.isEmpty)) := by
  induction items with
  | nil => intro i; rfl
  | cons x xs ih =>
    intro i
    rcases processRejRow_cases catalog i x with ⟨hsome, hnil⟩ | ⟨hnone, hne⟩
    · obtain ⟨r, hr⟩ := Option.isSome_iff_exists.mp hsome
      simp only [processRejections, List.enumFrom_cons, List.map_cons, List.filterMap_cons,
        List.filter_cons, hr, hnil, ih (i + 1)]
      simp
    · simp only [processRejections, List.enumFrom_cons, List.map_cons, List.filterMap_cons,
        List.filter_cons, hnone, ih (i + 1)]
      simp [List.isEmpty_iff, hne]

theorem core_errors_ne_nil_of_rej (catalog : List Problem) (data : Payload)
    (h : (processRejections catalog 0 data.rejections).2 ≠ []) :
    (normalise_core catalog data).errors ≠ [] := by
  unfold normalise_core
  dsimp only
  cases hb : processBoards data.board_data with
  | error e =>
    simp only [hb]
    split
    · next hemp => exact absurd (List.isEmpty_iff.mp hemp) h
    · exact dictUpdate_ne_nil_right _ _ (by simp)
  | ok rows =>
    simp only [hb]
    split
    · next hemp => exact absurd (List.isEmpty_iff.mp hemp) h
    · exact dictUpdate_ne_nil_right _ _ (by simp)

/-- C2 counterexample: with catalog `{6}` and two rejection rows — a valid
row followed by a row with unknown code 999 — the raised `rejections`
error list has a single entry sitting at index 0 even though input row 0
passed: the list is compacted, not aligned to input position. -/
theorem rejection_errors_misaligned_counterexample :
    payloadUnknownCode.rejections
        = [⟨PyVal.int 1, PyVal.int 6, Option.none⟩,
           ⟨PyVal.int 1, PyVal.int 999, Option.none⟩] ∧
      (processRejRow catalogSolder 0 ⟨PyVal.int 1, PyVal.int 6, Option.none⟩).2 = [] ∧
      normalise_payload catalogSolder payloadUnknownCode
        = .err [("rejections",
            ErrVal.rowList [[("problem_code", "Unknown problem code")]])] :=
  ⟨by decide, by decide, by decide⟩

/-- C2 amended: per-row rejection errors are collected in input order but
compacted — the error list holds exactly the non-empty per-row error maps
of the failing rows, so its indices do not correspond to input positions —
and a rejection row whose integer problem code does not resolve via the
catalog gets an "Unknown problem code" entry in its row map and blocks
creation of the entire form. -/
theorem rejection_errors_compacted_amended (catalog : List Problem) (data : Payload) :
    ((processRejections catalog 0 data.rejections).2
      = ((data.rejections.enumFrom 0).map
          (fun p => (processRejRow catalog p.1 p.2).2)).filter (fun l => !l.isEmpty)) ∧
    (∀ (it : RejRow) (n : Int), it ∈ data.rejections → it.problem_code = PyVal.int n →
      find_problem_name catalog n = Option.none →
      (∀ j : Nat, ("problem_code", "Unknown problem code") ∈ (processRejRow catalog j it).2) ∧
        create_form catalog data = Option.none) := by
  constructor
  · exact congrArg Prod.snd (processRejections_eq catalog data.rejections 0)
  · intro it n hmem hpc hfind
    refine ⟨fun j => (unknown_code_row catalog j it n hpc hfind).2, ?_⟩
    apply create_form_none_of_errors
    apply core_errors_ne_nil_of_rej
    rw [congrArg Prod.snd (processRejections_eq catalog data.rejections 0)]
    obtain ⟨j, hj⟩ := mem_enumFrom_of_mem it data.rejections hmem 0
    have hmm : (processRejRow catalog j it).2 ∈
        (data.rejections.enumFrom 0).map (fun p => (processRejRow catalog p.1 p.2).2) :=
      List.mem_map_of_mem _ hj
    have hne2 : (processRejRow catalog j it).2 ≠ [] :=
      List.ne_nil_of_mem ((unknown_code_row catalog j it n hpc hfind).2)
    exact List.ne_nil_of_mem (List.mem_filter.mpr ⟨hmm, by simpa [List.isEmpty_iff] using hne2⟩)

theorem rejection_errors_compacted_amended_witness :
    ("problem_code", "Unknown problem code")
        ∈ (processRejRow catalogSolder 1 ⟨PyVal.int 1, PyVal.int 999, Option.none⟩).2 ∧
      create_form catalogSolder payloadUnknownCode = Option.none := by
  have h := (rejection_errors_compacted_amended catalogSolder payloadUnknownCode).2
    ⟨PyVal.int 1, PyVal.int 999, Option.none⟩ 999 (by decide) (by decide) (by decide)
  exact ⟨h.1 1, h.2⟩

theorem normBoardRow_error (it : BoardRow) (e : Unit) (h : normBoardRow it = .error e) :
    boardProblemCode it.problem_code = .error () := by
  unfold normBoardRow at h
  cases hpc : boardProblemCode it.problem_code with
  | error e' => cases e'; rfl
  | ok pc =>
    rw [hpc] at h
    exact Except.noConfusion h

theorem processBoards_error (rows : List BoardRow) (e : Unit)
    (h : processBoards rows = .error e) :
    ∃ it ∈ rows, boardAnyTruthy it = true ∧
      boardProblemCode it.problem_code = .error () := by
  induction rows with
  | nil => exact Except.noConfusion h
  | cons item rest ih =>
    unfold processBoards at h
    split at h
    · next ht =>
      cases hn : normBoardRow item with
      | error e' =>
        exact ⟨item, List.mem_cons_self _ _, ht, normBoardRow_error item e' hn⟩
      | ok row =>
        rw [hn] at h
        cases hr : processBoards rest with
        | error e'' =>
          obtain ⟨it, hmem, h1, h2⟩ := ih hr
          exact ⟨it, List.mem_cons_of_mem _ hmem, h1, h2⟩
        | ok rows2 =>
          rw [hr] at h
          exact Except.noConfusion h
    · obtain ⟨it, hmem, h1, h2⟩ := ih h
      exact ⟨it, List.mem_cons_of_mem _ hmem, h1, h2⟩

theorem core_crash_boards (catalog : List Problem) (data : Payload)
    (h : (normalise_core catalog data).crash = true) :
    processBoards data.board_data = .error () := by
  unfold normalise_core at h
  dsimp only at h
  cases hb : processBoards data.board_data with
  | error e => cases e; rfl
  | ok rows =>
    rw [hb] at h
    simp at h

/-- C5 counterexample: a board-data row whose problem code is the truthy
non-numeric string `"abc"` makes `normalise_payload` escape with an
uncaught `ValueError` (the bare `int(...)` at the board loop is not
wrapped in a handler), not with the structured `ValidationError`
aggregate, even though a row-level error exists. -/
theorem board_crash_counterexample :
    normalise_payload [] payloadBoardCrash = .crash ∧
      (normalise_core [] payloadBoardCrash).crash = true :=
  ⟨by decide, by decide⟩

/-- C5 amended: `normalise_payload` returns a canonical record exactly
when the aggregate is empty and no board row crashes, and raises the
structured `ValidationError` aggregate whenever the aggregate is non-empty
and no board row crashes; but a board-data row whose problem code is
truthy and not parseable as an integer escapes with an unstructured
uncaught exception instead of the structured aggregate. -/
theorem structured_error_or_crash_amended (catalog : List Problem) (data : Payload) :
    ((normalise_core catalog data).crash = false →
      (normalise_core catalog data).errors ≠ [] →
      normalise_payload catalog data = .err (normalise_core catalog data).errors) ∧
    ((normalise_core catalog data).crash = false →
      (normalise_core catalog data).errors = [] →
      normalise_payload catalog data = .ok (normalise_core catalog data).record) ∧
    ((normalise_core catalog data).crash = true →
      normalise_payload catalog data = .crash ∧
        ∃ it ∈ data.board_data, boardAnyTruthy it = true ∧
          boardProblemCode it.problem_code = .error ()) := by
  refine ⟨?_, ?_, ?_⟩
  · intro hc he
    unfold normalise_payload
    dsimp only
    rw [if_neg (by simp [hc]), if_neg (by simpa [List.isEmpty_iff] using he)]
  · intro hc he
    unfold normalise_payload
    dsimp only
    rw [if_neg (by simp [hc]), if_pos (by simpa [List.isEmpty_iff] using he)]
  · intro hc
    refine ⟨?_, processBoards_error _ () (core_crash_boards catalog data hc)⟩
    unfold normalise_payload
    dsimp only
    rw [if_pos hc]

theorem structured_error_or_crash_amended_witness :
    normalise_payload [] payloadBadStatus
      = .err (normalise_core [] payloadBadStatus).errors :=
  (structured_error_or_crash_amended [] payloadBadStatus).1 (by decide) (by decide)

/-- C9 counterexample: a board-data row whose only field is the
whitespace-only board id `"  "` is truthy, so it survives the sparse
compaction, but after trimming every field normalises to absent: the
canonical output contains a board row with no non-empty field. -/
theorem board_blank_counterexample :
    boardAnyTruthy ⟨some "  ", Option.none, PyVal.none, Option.none⟩ = true ∧
      normalise_payload [] payloadBoardBlank
        = .ok (normalise_core [] payloadBoardBlank).record ∧
      (normalise_core [] payloadBoardBlank).record.board_data
        = [⟨Option.none, Option.none, Option.none, Option.none⟩] :=
  ⟨by decide, by decide, by decide⟩

/-- C9 amended: a board-data row where every field is empty/falsy is
dropped entirely, and every surviving row has its string fields trimmed
with empty strings normalised to absent; but a surviving row can still end
up with every field absent (when its only truthy fields are
whitespace-only strings), so canonical board rows need not have a
non-empty field. -/
theorem board_rows_amended : ∀ (item : BoardRow) (rest : List BoardRow),
    (boardAnyTruthy item = false → processBoards (item :: rest) = processBoards rest) ∧
    (∀ pc : Option Int, boardAnyTruthy item = true →
      boardProblemCode item.problem_code = .ok pc →
      processBoards (item :: rest)
        = (processBoards rest).map
            (fun rows =>
              (⟨stripOrNone item.board_id, stripOrNone item.reference_designators,
                pc, stripOrNone item.comments⟩ : BoardOut) :: rows)) := by
  intro item rest
  constructor
  · intro h
    conv_lhs => unfold processBoards
    rw [if_neg (by simp [h])]
  · intro pc ht hpc
    conv_lhs => unfold processBoards
    rw [if_pos ht]
    unfold normBoardRow
    rw [hpc]

theorem board_rows_amended_witness :
    processBoards [⟨some " B7 ", Option.none, PyVal.int 6, some ""⟩]
      = (processBoards []).map
          (fun rows =>
            (⟨stripOrNone (some " B7 "), stripOrNone Option.none,
              some 6, stripOrNone (some "")⟩ : BoardOut) :: rows) :=
  (board_rows_amended ⟨some " B7 ", Option.none, PyVal.int 6, some ""⟩ []).2
    (some 6) (by decide) (by decide)

theorem updAll_nil (p : Problem) : updAll [] p = p := rfl

theorem updAll_cons_ne (d : Defect) (t : List Defect) (p : Problem) (h : p.code ≠ d.id) :
    updAll (d :: t) p = updAll t p := by
  unfold updAll
  rw [@List.find?_cons_of_neg Defect (fun d' => d'.id == p.code) d t
    (by simp only [beq_iff_eq]; exact fun hc => h hc.symm)]

theorem updAll_cons_eq (d : Defect) (t : List Defect) (p : Problem) (h : p.code = d.id) :
    updAll (d :: t) p = ⟨p.code, d.name, d.part_type⟩ := by
  unfold updAll
  rw [@List.find?_cons_of_pos Defect (fun d' => d'.id == p.code) d t (by simp [h])]

theorem updAll_not_mem (ds : List Defect) (p : Problem)
    (h : ∀ d ∈ ds, p.code ≠ d.id) : updAll ds p = p := by
  unfold updAll
  rw [List.find?_eq_none.mpr (fun d hd => by simp only [beq_iff_eq]; exact fun hc => h d hd hc.symm)]

theorem syncStepFound_codes (ex : List Problem) (d : Defect) :
    (syncStepFound ex d).map (·.code) = ex.map (·.code) := by
  unfold syncStepFound
  rw [List.map_map]
  apply List.map_congr_left
  intro q hq
  by_cases hc : (q.code == d.id) = true <;> simp [Function.comp, hc]

theorem syncStepFound_find?_ne (ex : List Problem) (d : Defect) (c : Int) (hne : c ≠ d.id) :
    (syncStepFound ex d).find? (fun p => p.code == c) = ex.find? (fun p => p.code == c) := by
  unfold syncStepFound
  rw [List.find?_map]
  have hfun : ((fun p : Problem => p.code == c) ∘
      (fun q : Problem => if q.code == d.id then ⟨q.code, d.name, d.part_type⟩ else q))
      = (fun q : Problem => q.code == c) := by
    funext q
    by_cases hq : (q.code == d.id) = true <;> simp [Function.comp, hq]
  rw [hfun]
  cases hf : ex.find? (fun q => q.code == c) with
  | none => simp
  | some q =>
    have hqc : q.code = c := by simpa using List.find?_some hf
    have hno : ¬((q.code == d.id) = true) := by simp [hqc, hne]
    simp [Option.map, hno]

theorem any_code_map (ex : List Problem) (c : Int) :
    ex.any (fun p => p.code == c) = (ex.map (·.code)).any (fun x => x == c) := by
  induction ex with
  | nil => rfl
  | cons q t ih => simp [ih]

theorem insOf_congr (ex1 ex2 : List Problem) (ds : List Defect)
    (h : ex1.map (·.code) = ex2.map (·.code)) : insOf ex1 ds = insOf ex2 ds := by
  unfold insOf
  congr 1
  apply List.filter_congr
  intro d hd
  rw [any_code_map, any_code_map, h]

theorem wsOf_syncStepFound (ex : List Problem) (d : Defect) (t : List Defect)
    (h : ∀ d' ∈ t, d'.id ≠ d.id) : wsOf (syncStepFound ex d) t = wsOf ex t := by
  unfold wsOf
  apply List.filterMap_congr
  intro d' hd'
  rw [syncStepFound_find?_ne ex d d'.id (h d' hd')]

theorem syncLoop_closed : ∀ (ds : List Defect) (ex ins : List Problem)
    (ws : List SyncWrite) (ch : Bool),
    (ds.map (·.id)).Nodup → (ex.map (·.code)).Nodup →
    syncLoop ex ins ws ch ds
      = (ex.map (updAll ds), ins ++ insOf ex ds, ws ++ wsOf ex ds,
         ch || !(wsOf ex ds).isEmpty) := by
  intro ds
  induction ds with
  | nil =>
    intro ex ins ws ch hd hex
    show (ex, ins, ws, ch) = _
    rw [List.map_id'' updAll_nil ex]
    simp [insOf, wsOf]
  | cons d t ih =>
    intro ex ins ws ch hd hex
    have hdid : d.id ∉ t.map (·.id) := (List.nodup_cons.mp hd).1
    have hdt : (t.map (·.id)).Nodup := (List.nodup_cons.mp hd).2
    simp only [syncLoop]
    cases hfind : ex.find? (fun p => p.code == d.id) with
    | none =>
      dsimp only
      have hnotin : ∀ q ∈ ex, q.code ≠ d.id := by
        intro q hq hc
        exact (List.find?_eq_none.mp hfind q hq) (by simp [hc])
      have hmap : ex.map (updAll t) = ex.map (updAll (d :: t)) :=
        List.map_congr_left (fun q hq => (updAll_cons_ne d t q (hnotin q hq)).symm)
      have hany : ex.any (fun p => p.code == d.id) = false := by
        rw [Bool.eq_false_iff]
        intro hc
        obtain ⟨p, hp, hpc⟩ := List.any_eq_true.mp hc
        exact hnotin p hp (by simpa using hpc)
      have hins : insOf ex (d :: t) = ⟨d.id, d.name, d.part_type⟩ :: insOf ex t := by
        unfold insOf
        simp [List.filter_cons, hany]
      have hws : wsOf ex (d :: t) = SyncWrite.insert d.id :: wsOf ex t := by
        unfold wsOf
        rw [List.filterMap_cons]
        rw [hfind]
      refine (ih ex (ins ++ [⟨d.id, d.name, d.part_type⟩])
          (ws ++ [SyncWrite.insert d.id]) true hdt hex).trans ?_
      simp [hmap, hins, hws, List.append_assoc]
    | some p =>
      have hpmem : p ∈ ex := List.mem_of_find?_eq_some hfind
      have hpcode : p.code = d.id := by simpa using List.find?_some hfind
      have hany : ex.any (fun p' => p'.code == d.id) = true :=
        List.any_eq_true.mpr ⟨p, hpmem, by simp [hpcode]⟩
      have hins3 : insOf ex (d :: t) = insOf ex t := by
        unfold insOf
        simp [List.filter_cons, hany]
      by_cases heq : p.name = d.name ∧ p.part_type = d.part_type
      · dsimp only
        rw [if_pos heq]
        rw [ih ex ins ws ch hdt hex]
        have hmap : ex.map (updAll t) = ex.map (updAll (d :: t)) := by
          apply List.map_congr_left
          intro q hq
          by_cases hqc : q.code = d.id
          · have hqp : q = p := List.inj_on_of_nodup_map hex hq hpmem (by rw [hqc, hpcode])
            rw [updAll_cons_eq d t q hqc,
              updAll_not_mem t q (fun d' hd' hcc => hdid (by
                rw [← hqc, hcc] at hdid ⊢
                exact List.mem_map_of_mem (·.id) hd')),
              hqp, ← heq.1, ← heq.2]
          · rw [updAll_cons_ne d t q hqc]
        have hws : wsOf ex (d :: t) = wsOf ex t := by
          unfold wsOf
          rw [List.filterMap_cons, hfind]
          simp [heq]
        simp [hmap, hins3, hws]
      · dsimp only
        rw [if_neg heq]
        have hex2 : ((syncStepFound ex d).map (·.code)).Nodup := by
          rw [syncStepFound_codes]
          exact hex
        have hmap2 : (syncStepFound ex d).map (updAll t) = ex.map (updAll (d :: t)) := by
          unfold syncStepFound
          rw [List.map_map]
          apply List.map_congr_left
          intro q hq
          by_cases hqc : q.code = d.id
          · have h1 : (if (q.code == d.id) = true
                then (⟨q.code, d.name, d.part_type⟩ : Problem) else q)
                = ⟨q.code, d.name, d.part_type⟩ := if_pos (by simp [hqc])
            simp only [Function.comp, h1]
            rw [updAll_not_mem t ⟨q.code, d.name, d.part_type⟩ (fun d' hd' hcc => hdid (by
                rw [← hqc, hcc] at hdid ⊢
                exact List.mem_map_of_mem (·.id) hd')),
              updAll_cons_eq d t q hqc]
          · have h1 : (if (q.code == d.id) = true
                then (⟨q.code, d.name, d.part_type⟩ : Problem) else q) = q :=
              if_neg (by simp [hqc])
            simp only [Function.comp, h1]
            rw [updAll_cons_ne d t q hqc]
        have hins2 : insOf (syncStepFound ex d) t = insOf ex t :=
          insOf_congr _ _ t (syncStepFound_codes ex d)
        have hws2 : wsOf (syncStepFound ex d) t = wsOf ex t :=
          wsOf_syncStepFound ex d t (fun d' hd' hcc =>
            hdid (by rw [← hcc]; exact List.mem_map_of_mem (·.id) hd'))
        have hws3 : wsOf ex (d :: t) = SyncWrite.update d.id :: wsOf ex t := by
          unfold wsOf
          rw [List.filterMap_cons, hfind]
          simp [heq]
        refine (ih (syncStepFound ex d) ins (ws ++ [SyncWrite.update d.id]) true hdt
            hex2).trans ?_
        simp [hmap2, hins2, hins3, hws2, hws3, List.append_assoc]

theorem ensure_ok_eq (mirror : List Problem) (ds : List Defect)
    (hd : (ds.map (·.id)).Nodup) (hm : (mirror.map (·.code)).Nodup) :
    ensure_problem_codes mirror (.ok ds)
      = ⟨mirrorAfter mirror ds,
         wsOf mirror ds ++ (staleOf mirror ds).map SyncWrite.delete,
         !(wsOf mirror ds).isEmpty || !(staleOf mirror ds).isEmpty⟩ := by
  unfold ensure_problem_codes
  dsimp only
  rw [syncLoop_closed ds mirror [] [] false hd hm]
  dsimp only
  simp [staleOf, mirrorAfter]

theorem contains_iff_mem_int (l : List Int) (a : Int) : l.contains a = true ↔ a ∈ l :=
  List.elem_iff

theorem updAll_code (ds : List Defect) (p : Problem) : (updAll ds p).code = p.code := by
  unfold updAll
  cases hf : ds.find? (fun d => d.id == p.code) <;> simp [hf]

theorem find?_code_of_mem (mirror : List Problem) (hm : (mirror.map (·.code)).Nodup)
    (p : Problem) (hp : p ∈ mirror) (c : Int) (hc : p.code = c) :
    mirror.find? (fun q => q.code == c) = some p := by
  subst hc
  cases hf : mirror.find? (fun q => q.code == p.code) with
  | none =>
    exact absurd (by simp : (p.code == p.code) = true) (List.find?_eq_none.mp hf p hp)
  | some q =>
    have hq : q.code = p.code := by simpa using List.find?_some hf
    have hqm : q ∈ mirror := List.mem_of_find?_eq_some hf
    rw [List.inj_on_of_nodup_map hm hqm hp hq]

theorem find?_id_of_mem (ds : List Defect) (hd : (ds.map (·.id)).Nodup)
    (d : Defect) (hdm : d ∈ ds) (c : Int) (hc : d.id = c) :
    ds.find? (fun d' => d'.id == c) = some d := by
  subst hc
  cases hf : ds.find? (fun d' => d'.id == d.id) with
  | none =>
    exact absurd (by simp : (d.id == d.id) = true) (List.find?_eq_none.mp hf d hdm)
  | some d' =>
    have hq : d'.id = d.id := by simpa using List.find?_some hf
    have hqm : d' ∈ ds := List.mem_of_find?_eq_some hf
    rw [List.inj_on_of_nodup_map hd hqm hdm hq]

theorem updAll_of_mem (ds : List Defect) (hd : (ds.map (·.id)).Nodup)
    (d : Defect) (hdm : d ∈ ds) (p : Problem) (hc : p.code = d.id) :
    updAll ds p = ⟨p.code, d.name, d.part_type⟩ := by
  unfold updAll
  rw [hc, find?_id_of_mem ds hd d hdm d.id rfl]

theorem mem_staleOf (mirror : List Problem) (ds : List Defect) (c : Int) :
    c ∈ staleOf mirror ds ↔ (c ∈ mirror.map (·.code) ∧ c ∉ ds.map (·.id)) := by
  unfold staleOf
  rw [List.mem_filter]
  constructor
  · rintro ⟨h1, h2⟩
    refine ⟨h1, fun hc => ?_⟩
    rw [Bool.not_eq_true' ] at h2
    rw [Bool.eq_false_iff] at h2
    exact h2 ((contains_iff_mem_int _ _).mpr hc)
  · rintro ⟨h1, h2⟩
    refine ⟨h1, ?_⟩
    have : (ds.map (·.id)).contains c = false := by
      rw [Bool.eq_false_iff]
      exact fun hc => h2 ((contains_iff_mem_int _ _).mp hc)
    rw [this]
    rfl

theorem not_contains_of_not_mem (l : List Int) (a : Int) (h : a ∉ l) :
    l.contains a = false := by
  rw [Bool.eq_false_iff]
  exact fun hc => h ((contains_iff_mem_int _ _).mp hc)

/-- C6: on every successful fetch, symmetric-difference reconciliation:
mirror codes absent from the incoming set are deleted, incoming codes
absent from the mirror are inserted, codes in both with changed name or
part-type are updated in place, and codes in both with unchanged data are
left untouched (no write mentions them, the row survives unchanged). -/
theorem sync_reconciliation (mirror : List Problem) (ds : List Defect)
    (hm : (mirror.map (·.code)).Nodup) (hd : (ds.map (·.id)).Nodup) :
    (∀ p ∈ mirror, p.code ∉ ds.map (·.id) →
      SyncWrite.delete p.code ∈ (ensure_problem_codes mirror (.ok ds)).writes ∧
        ∀ q ∈ (ensure_problem_codes mirror (.ok ds)).mirror, q.code ≠ p.code) ∧
    (∀ d ∈ ds, d.id ∉ mirror.map (·.code) →
      SyncWrite.insert d.id ∈ (ensure_problem_codes mirror (.ok ds)).writes ∧
        (⟨d.id, d.name, d.part_type⟩ : Problem)
          ∈ (ensure_problem_codes mirror (.ok ds)).mirror) ∧
    (∀ d ∈ ds, ∀ p ∈ mirror, p.code = d.id →
      ¬(p.name = d.name ∧ p.part_type = d.part_type) →
      SyncWrite.update d.id ∈ (ensure_problem_codes mirror (.ok ds)).writes ∧
        (⟨p.code, d.name, d.part_type⟩ : Problem)
          ∈ (ensure_problem_codes mirror (.ok ds)).mirror) ∧
    (∀ d ∈ ds, ∀ p ∈ mirror, p.code = d.id →
      p.name = d.name → p.part_type = d.part_type →
      p ∈ (ensure_problem_codes mirror (.ok ds)).mirror ∧
        ∀ w ∈ (ensure_problem_codes mirror (.ok ds)).writes,
          w ≠ SyncWrite.insert p.code ∧ w ≠ SyncWrite.update p.code ∧
            w ≠ SyncWrite.delete p.code) := by
  rw [ensure_ok_eq mirror ds hd hm]
  dsimp only
  refine ⟨?_, ?_, ?_, ?_⟩
  · intro p hp hnot
    have hstale : p.code ∈ staleOf mirror ds :=
      (mem_staleOf mirror ds p.code).mpr ⟨List.mem_map_of_mem _ hp, hnot⟩
    constructor
    · exact List.mem_append.mpr (Or.inr (List.mem_map_of_mem _ hstale))
    · intro q hq hqc
      unfold mirrorAfter at hq
      rcases List.mem_append.mp hq with hq1 | hq1
      · have hpred := (List.mem_filter.mp hq1).2
        have hcont : (staleOf mirror ds).contains q.code = true := by
          rw [hqc]
          exact (contains_iff_mem_int _ _).mpr hstale
        rw [hcont] at hpred
        simp at hpred
      · unfold insOf at hq1
        obtain ⟨d', hd'f, hd'e⟩ := List.mem_map.mp hq1
        have hd'ds : d' ∈ ds := List.mem_of_mem_filter hd'f
        apply hnot
        rw [← hqc, ← hd'e]
        exact List.mem_map_of_mem (·.id) hd'ds
  · intro d hdm hnot
    have hfind_none : mirror.find? (fun p => p.code == d.id) = Option.none :=
      List.find?_eq_none.mpr (fun p hp hc =>
        hnot (by
          rw [← show p.code = d.id by simpa using hc]
          exact List.mem_map_of_mem (·.code) hp))
    have hany_false : mirror.any (fun p => p.code == d.id) = false := by
      rw [Bool.eq_false_iff]
      intro hc
      obtain ⟨p, hp, hpc⟩ := List.any_eq_true.mp hc
      exact hnot (by
        rw [← show p.code = d.id by simpa using hpc]
        exact List.mem_map_of_mem (·.code) hp)
    constructor
    · refine List.mem_append.mpr (Or.inl ?_)
      unfold wsOf
      exact List.mem_filterMap.mpr ⟨d, hdm, by rw [hfind_none]⟩
    · unfold mirrorAfter
      refine List.mem_append.mpr (Or.inr ?_)
      unfold insOf
      exact List.mem_map_of_mem _ (List.mem_filter.mpr ⟨hdm, by rw [hany_false]; rfl⟩)
  · intro d hdm p hp hpc hchg
    have hfindp : mirror.find? (fun q => q.code == d.id) = some p :=
      find?_code_of_mem mirror hm p hp d.id hpc
    have hupd : updAll ds p = ⟨p.code, d.name, d.part_type⟩ :=
      updAll_of_mem ds hd d hdm p hpc
    have hpin : p.code ∈ ds.map (·.id) := by
      rw [hpc]
      exact List.mem_map_of_mem (·.id) hdm
    have hnost : (staleOf mirror ds).contains p.code = false :=
      not_contains_of_not_mem _ _ (fun hc => ((mem_staleOf mirror ds p.code).mp hc).2 hpin)
    constructor
    · refine List.mem_append.mpr (Or.inl ?_)
      unfold wsOf
      refine List.mem_filterMap.mpr ⟨d, hdm, ?_⟩
      rw [hfindp]
      simp [hchg]
    · unfold mirrorAfter
      refine List.mem_append.mpr (Or.inl (List.mem_filter.mpr ⟨?_, ?_⟩))
      · rw [← hupd]
        exact List.mem_map_of_mem _ hp
      · simp
        exact fun hc => ((mem_staleOf mirror ds p.code).mp hc).2 hpin
  · intro d hdm p hp hpc hn hpt
    have hupd : updAll ds p = p := by
      rw [updAll_of_mem ds hd d hdm p hpc, ← hn, ← hpt]
    have hpin : p.code ∈ ds.map (·.id) := by
      rw [hpc]
      exact List.mem_map_of_mem (·.id) hdm
    have hnost : (staleOf mirror ds).contains p.code = false :=
      not_contains_of_not_mem _ _ (fun hc => ((mem_staleOf mirror ds p.code).mp hc).2 hpin)
    constructor
    · unfold mirrorAfter
      refine List.mem_append.mpr (Or.inl (List.mem_filter.mpr ⟨?_, ?_⟩))
      · rw [← hupd]
        exact List.mem_map_of_mem _ hp
      · simp
        exact fun hc => ((mem_staleOf mirror ds p.code).mp hc).2 hpin
    · intro w hw
      rcases List.mem_append.mp hw with hw1 | hw2
      · unfold wsOf at hw1
        obtain ⟨d', hd'm, hfd'⟩ := List.mem_filterMap.mp hw1
        cases hfind' : mirror.find? (fun q => q.code == d'.id) with
        | none =>
          rw [hfind'] at hfd'
          injection hfd' with hw'
          subst hw'
          refine ⟨?_, ?_, ?_⟩
          · intro hc
            injection hc with hcc
            exact (List.find?_eq_none.mp hfind' p hp) (by simp [hcc])
          · intro hc
            exact SyncWrite.noConfusion hc
          · intro hc
            exact SyncWrite.noConfusion hc
        | some q =>
          rw [hfind'] at hfd'
          dsimp only at hfd'
          by_cases hch : q.name = d'.name ∧ q.part_type = d'.part_type
          · rw [if_pos hch] at hfd'
            exact Option.noConfusion hfd'
          · rw [if_neg hch] at hfd'
            injection hfd' with hw'
            subst hw'
            refine ⟨?_, ?_, ?_⟩
            · intro hc
              exact SyncWrite.noConfusion hc
            · intro hc
              injection hc with hcc
              have hd'd : d' = d :=
                List.inj_on_of_nodup_map hd hd'm hdm (by rw [hcc, hpc])
              have hfp : mirror.find? (fun q' => q'.code == d'.id) = some p :=
                find?_code_of_mem mirror hm p hp d'.id (by rw [hpc, ← hd'd])
              have hqp : q = p := by
                have h2 : some q = some p := hfind'.symm.trans hfp
                injection h2
              apply hch
              rw [hqp, hd'd]
              exact ⟨hn, hpt⟩
            · intro hc
              exact SyncWrite.noConfusion hc
      · obtain ⟨c, hcs, hce⟩ := List.mem_map.mp hw2
        subst hce
        refine ⟨?_, ?_, ?_⟩
        · intro hc
          exact SyncWrite.noConfusion hc
        · intro hc
          exact SyncWrite.noConfusion hc
        · intro hc
          injection hc with hcc
          exact ((mem_staleOf mirror ds c).mp hcs).2 (by rw [hcc]; exact hpin)

theorem sync_reconciliation_witness :
    SyncWrite.insert 4 ∈ (ensure_problem_codes mirror123 (.ok defects234)).writes ∧
      (⟨4, "d", Option.none⟩ : Problem)
        ∈ (ensure_problem_codes mirror123 (.ok defects234)).mirror :=
  (sync_reconciliation mirror123 defects234 (by decide) (by decide)).2.1
    ⟨4, "d", Option.none⟩ (by decide) (by decide)

theorem mem_mirrorAfter_ids (mirror : List Problem) (ds : List Defect)
    (q : Problem) (hq : q ∈ mirrorAfter mirror ds) : q.code ∈ ds.map (·.id) := by
  unfold mirrorAfter at hq
  rcases List.mem_append.mp hq with hq1 | hq1
  · have hpred : q.code ∉ staleOf mirror ds := by
      simpa using (List.mem_filter.mp hq1).2
    obtain ⟨p, hp, hpe⟩ := List.mem_map.mp (List.mem_filter.mp hq1).1
    have hcode : q.code ∈ mirror.map (·.code) := by
      rw [← hpe, updAll_code]
      exact List.mem_map_of_mem (·.code) hp
    by_contra hc
    exact hpred ((mem_staleOf mirror ds q.code).mpr ⟨hcode, hc⟩)
  · unfold insOf at hq1
    obtain ⟨d', hd'f, hd'e⟩ := List.mem_map.mp hq1
    rw [← hd'e]
    exact List.mem_map_of_mem (·.id) (List.mem_of_mem_filter hd'f)

theorem mem_mirrorAfter_eq (mirror : List Problem) (ds : List Defect)
    (hd : (ds.map (·.id)).Nodup) (d : Defect) (hdm : d ∈ ds)
    (q : Problem) (hq : q ∈ mirrorAfter mirror ds) (hqc : q.code = d.id) :
    q = ⟨d.id, d.name, d.part_type⟩ := by
  unfold mirrorAfter at hq
  rcases List.mem_append.mp hq with hq1 | hq1
  · obtain ⟨p, hp, hpe⟩ := List.mem_map.mp (List.mem_filter.mp hq1).1
    have hpq : p.code = q.code := by
      rw [← hpe, updAll_code]
    have hpd : p.code = d.id := hpq.trans hqc
    rw [← hpe, updAll_of_mem ds hd d hdm p hpd, hpd]
  · unfold insOf at hq1
    obtain ⟨d', hd'f, hd'e⟩ := List.mem_map.mp hq1
    have hd'ds : d' ∈ ds := List.mem_of_mem_filter hd'f
    have hid : d'.id = d.id := by
      rw [← hqc, ← hd'e]
    have hd'd : d' = d := List.inj_on_of_nodup_map hd hd'ds hdm hid
    rw [← hd'e, hd'd]

theorem exists_mem_mirrorAfter (mirror : List Problem) (ds : List Defect)
    (d : Defect) (hdm : d ∈ ds) :
    ∃ q ∈ mirrorAfter mirror ds, q.code = d.id := by
  have hdin : d.id ∈ ds.map (·.id) := List.mem_map_of_mem (·.id) hdm
  by_cases hc : d.id ∈ mirror.map (·.code)
  · obtain ⟨p, hp, hpe⟩ := List.mem_map.mp hc
    refine ⟨updAll ds p, ?_, by rw [updAll_code]; exact hpe⟩
    unfold mirrorAfter
    refine List.mem_append.mpr (Or.inl (List.mem_filter.mpr
      ⟨List.mem_map_of_mem _ hp, ?_⟩))
    have hnost : (staleOf mirror ds).contains (updAll ds p).code = false := by
      rw [updAll_code]
      exact not_contains_of_not_mem _ _
        (fun hs => ((mem_staleOf mirror ds p.code).mp hs).2 (by rw [hpe]; exact hdin))
    simp only [hnost]
    rfl
  · refine ⟨⟨d.id, d.name, d.part_type⟩, ?_, rfl⟩
    unfold mirrorAfter
    refine List.mem_append.mpr (Or.inr ?_)
    unfold insOf
    have hany_false : mirror.any (fun p => p.code == d.id) = false := by
      rw [Bool.eq_false_iff]
      intro hx
      obtain ⟨p, hp, hpc⟩ := List.any_eq_true.mp hx
      exact hc (by
        rw [← show p.code = d.id by simpa using hpc]
        exact List.mem_map_of_mem (·.code) hp)
    exact List.mem_map_of_mem _ (List.mem_filter.mpr ⟨hdm, by rw [hany_false]; rfl⟩)

theorem mirrorAfter_nodup (mirror : List Problem) (ds : List Defect)
    (hm : (mirror.map (·.code)).Nodup) (hd : (ds.map (·.id)).Nodup) :
    ((mirrorAfter mirror ds).map (·.code)).Nodup := by
  unfold mirrorAfter
  rw [List.map_append]
  have hcodes : (mirror.map (updAll ds)).map (·.code) = mirror.map (·.code) := by
    rw [List.map_map]
    exact List.map_congr_left (fun p _ => updAll_code ds p)
  have hA : (((mirror.map (updAll ds)).filter
      (fun p => !((staleOf mirror ds).contains p.code))).map (·.code)).Nodup := by
    refine List.Sublist.nodup (List.Sublist.map _ (List.filter_sublist _)) ?_
    rw [hcodes]
    exact hm
  have hBcodes : (insOf mirror ds).map (·.code)
      = (ds.filter (fun d => !(mirror.any (fun p => p.code == d.id)))).map (·.id) := by
    unfold insOf
    rw [List.map_map]
    rfl
  have hB : ((insOf mirror ds).map (·.code)).Nodup := by
    rw [hBcodes]
    exact List.Sublist.nodup (List.Sublist.map _ (List.filter_sublist _)) hd
  refine List.Nodup.append hA hB (List.disjoint_left.mpr ?_)
  intro a ha hb
  obtain ⟨q, hq, hqe⟩ := List.mem_map.mp ha
  obtain ⟨p, hp, hpe⟩ := List.mem_map.mp (List.mem_filter.mp hq).1
  have hamem : a ∈ mirror.map (·.code) := by
    rw [← hqe, ← hpe, updAll_code]
    exact List.mem_map_of_mem (·.code) hp
  rw [hBcodes] at hb
  obtain ⟨d', hd'f, hd'e⟩ := List.mem_map.mp hb
  have hany := (List.mem_filter.mp hd'f).2
  obtain ⟨p', hp', hp'c⟩ := List.mem_map.mp hamem
  have : mirror.any (fun p'' => p''.code == d'.id) = true :=
    List.any_eq_true.mpr ⟨p', hp', by simp [hp'c, hd'e]⟩
  rw [this] at hany
  simp at hany

theorem staleOf_mirrorAfter (mirror : List Problem) (ds : List Defect) :
    staleOf (mirrorAfter mirror ds) ds = [] := by
  unfold staleOf
  rw [List.filter_eq_nil_iff]
  intro c hc
  obtain ⟨q, hq, hqe⟩ := List.mem_map.mp hc
  have hin : c ∈ ds.map (·.id) := by
    rw [← hqe]
    exact mem_mirrorAfter_ids mirror ds q hq
  rw [(contains_iff_mem_int _ _).mpr hin]
  simp

theorem insOf_mirrorAfter (mirror : List Problem) (ds : List Defect) :
    insOf (mirrorAfter mirror ds) ds = [] := by
  unfold insOf
  have : ds.filter (fun d => !((mirrorAfter mirror ds).any (fun p => p.code == d.id))) = [] := by
    rw [List.filter_eq_nil_iff]
    intro d hdm
    obtain ⟨q, hq, hqc⟩ := exists_mem_mirrorAfter mirror ds d hdm
    rw [List.any_eq_true.mpr ⟨q, hq, by simp [hqc]⟩]
    simp
  rw [this]
  rfl

theorem wsOf_mirrorAfter (mirror : List Problem) (ds : List Defect)
    (hd : (ds.map (·.id)).Nodup) :
    wsOf (mirrorAfter mirror ds) ds = [] := by
  unfold wsOf
  rw [List.filterMap_eq_nil_iff]
  intro d hdm
  obtain ⟨q, hq, hqc⟩ := exists_mem_mirrorAfter mirror ds d hdm
  cases hf : (mirrorAfter mirror ds).find? (fun p => p.code == d.id) with
  | none =>
    exact absurd (by simp [hqc] : (q.code == d.id) = true)
      (List.find?_eq_none.mp hf q hq)
  | some q' =>
    have hq'm : q' ∈ mirrorAfter mirror ds := List.mem_of_find?_eq_some hf
    have hq'c : q'.code = d.id := by simpa using List.find?_some hf
    have hq'e : q' = ⟨d.id, d.name, d.part_type⟩ :=
      mem_mirrorAfter_eq mirror ds hd d hdm q' hq'm hq'c
    rw [hq'e]
    simp

theorem updAll_mirrorAfter (mirror : List Problem) (ds : List Defect)
    (hd : (ds.map (·.id)).Nodup) :
    (mirrorAfter mirror ds).map (updAll ds) = mirrorAfter mirror ds := by
  have h : ∀ q ∈ mirrorAfter mirror ds, updAll ds q = q := by
    intro q hq
    obtain ⟨d, hdm, hde⟩ := List.mem_map.mp (mem_mirrorAfter_ids mirror ds q hq)
    have hqc : q.code = d.id := hde.symm
    have hqe : q = ⟨d.id, d.name, d.part_type⟩ :=
      mem_mirrorAfter_eq mirror ds hd d hdm q hq hqc
    rw [updAll_of_mem ds hd d hdm q hqc, hqc, ← hqe]
  rw [List.map_congr_left h, List.map_id']

/-- C7: synchronising a second time with unchanged external data is a
no-op: the mirror is unchanged, no insert, update or delete is issued, and
no commit happens. -/
theorem sync_idempotent (mirror : List Problem) (ds : List Defect)
    (hm : (mirror.map (·.code)).Nodup) (hd : (ds.map (·.id)).Nodup) :
    ensure_problem_codes (ensure_problem_codes mirror (.ok ds)).mirror (.ok ds)
      = ⟨(ensure_problem_codes mirror (.ok ds)).mirror, [], false⟩ := by
  rw [ensure_ok_eq mirror ds hd hm]
  dsimp only
  have hm1 : ((mirrorAfter mirror ds).map (·.code)).Nodup :=
    mirrorAfter_nodup mirror ds hm hd
  rw [ensure_ok_eq (mirrorAfter mirror ds) ds hd hm1]
  have hma : mirrorAfter (mirrorAfter mirror ds) ds = mirrorAfter mirror ds := by
    have hstep : mirrorAfter (mirrorAfter mirror ds) ds
        = ((mirrorAfter mirror ds).map (updAll ds)).filter
            (fun p => !((staleOf (mirrorAfter mirror ds) ds).contains p.code))
          ++ insOf (mirrorAfter mirror ds) ds := rfl
    have hpred : ∀ q ∈ mirrorAfter mirror ds,
        (!(([] : List Int).contains q.code)) = (fun _ : Problem => true) q :=
      fun _ _ => rfl
    rw [hstep, updAll_mirrorAfter mirror ds hd, staleOf_mirrorAfter, insOf_mirrorAfter,
      List.append_nil, List.filter_congr hpred, List.filter_true]
  rw [hma, wsOf_mirrorAfter mirror ds hd, staleOf_mirrorAfter]
  rfl

theorem sync_idempotent_witness :
    ensure_problem_codes (ensure_problem_codes mirror123 (.ok defects234)).mirror
        (.ok defects234)
      = ⟨(ensure_problem_codes mirror123 (.ok defects234)).mirror, [], false⟩ :=
  sync_idempotent mirror123 defects234 (by decide) (by decide)

end Aoi
